import Mathlib

/-!
Verification of the task-lifecycle / gamification / reminder core of
`discord_todo_bot.py` (an AI to-do list chat bot).

The Python source is shallowly embedded below:
* text is `List Char` (`Str`), with faithful models of the Python string
  operations the bot uses (`split`, `strip`, `rstrip(']')`, `capitalize`,
  `'by'.join`, substring containment);
* the SQLAlchemy store (`users`, `tasks`, `badges` tables) is an explicit
  record of lists; each `get_session` block of the source becomes one pure
  state transformation (one transaction);
* `dateutil.parser.parse(date_str, fuzzy=True)` is an abstract oracle
  `Str → Option ParsedDT`: a parsed value carries the wall-clock timestamp
  (seconds) and an optional timezone offset (seconds), matching the
  source's `tzinfo is None` / `astimezone(utc)` normalization;
* datetimes are seconds since the epoch (UTC); `.date()` is floor-division
  by 86400, so Python's whole-day difference of the date portions is the
  difference of those quotients.
-/

/-- Text, modelled as a list of characters (Python `str`). -/
abbrev Str := List Char

/-! ### Python string primitives -/

/-- Worker for `pySplit`.  The `Nat` argument counts separator characters
still to be skipped after a match (Python's `str.split` consumes the
separator).  Structural in the string, so it evaluates in the kernel. -/
def splitAux (a : Char) (sep : Str) : Str → Nat → List Str
  | [], _ => [[]]
  | _ :: rest, n + 1 => splitAux a sep rest n
  | c :: rest, 0 =>
    if List.isPrefixOf (a :: sep) (c :: rest) then
      [] :: splitAux a sep rest sep.length
    else
      match splitAux a sep rest 0 with
      | [] => [[c]]
      | p :: ps => (c :: p) :: ps

/-- Python `s.split(sep)` for a non-empty separator `a :: sep`:
left-to-right, non-overlapping matches. -/
def pySplit (a : Char) (sep : Str) (s : Str) : List Str :=
  splitAux a sep s 0

/-- Python `sep in s` for a non-empty pattern `a :: sep`
(substring containment). -/
def containsSeq (a : Char) (sep : Str) : Str → Bool
  | [] => false
  | c :: rest => List.isPrefixOf (a :: sep) (c :: rest) || containsSeq a sep rest

/-- Python `sep.join(parts)`. -/
def joinWith (sep : Str) : List Str → Str
  | [] => []
  | [p] => p
  | p :: q :: ps => p ++ sep ++ joinWith sep (q :: ps)

/-- Python `s.strip()`: drop whitespace from both ends. -/
def trimL (s : Str) : Str :=
  (((s.dropWhile Char.isWhitespace).reverse).dropWhile Char.isWhitespace).reverse

/-- Python `s.rstrip(']')`: drop trailing `]` characters. -/
def rstripRB (s : Str) : Str :=
  ((s.reverse).dropWhile (fun c => c == ']')).reverse

/-- Python `s.capitalize()`: first character upper-cased, rest lower-cased. -/
def pyCapitalize : Str → Str
  | [] => []
  | c :: cs => c.toUpper :: cs.map Char.toLower

/-! ### Data model (SQLAlchemy tables `users`, `tasks`, `badges`)

The `id` primary keys become explicit `Nat` fields; column defaults
(`points=0`, `streak=0`, `completed=False`, `notified=False`,
`priority="Medium"`) appear at the creation sites, as in the source.
The `Badge.id` primary key is never read by the bot and is omitted. -/

/-- Row of the `users` table. -/
structure UserR where
  uid : Nat
  discordId : String
  points : Nat
  streak : Nat
  lastCompleted : Option Nat
deriving DecidableEq, Repr

/-- Row of the `tasks` table.  `addedAt`/`editedAt` are the
`added_at`/`edited_at` columns.  (The source's `done_task` also assigns
`task.completed_at`, but `Task` declares no such column, so that value is
a transient Python attribute and never persisted; the store has no such
field.) -/
structure TaskR where
  tid : Nat
  description : Str
  dueDate : Option Int
  completed : Bool
  priority : Str
  addedAt : Nat
  editedAt : Option Nat
  notified : Bool
  userId : Nat
deriving DecidableEq, Repr

/-- Row of the `badges` table. -/
structure BadgeR where
  name : Str
  userId : Nat
deriving DecidableEq, Repr

/-- The relational store, plus the autoincrement counters for the two
primary keys the code reads back (`user.id`, `task.id`). -/
structure Store where
  users : List UserR
  tasks : List TaskR
  badges : List BadgeR
  nextUserId : Nat
  nextTaskId : Nat
deriving DecidableEq, Repr

/-! ### Helper functions of the source -/

/-- `session.query(User).filter_by(discord_id=...).first()`. -/
def findUserByDiscord (s : Store) (did : String) : Option UserR :=
  s.users.find? (fun u => u.discordId == did)

/-- `session.query(User).filter_by(id=...).first()`. -/
def findUserById (s : Store) (uid : Nat) : Option UserR :=
  s.users.find? (fun u => u.uid == uid)

/-- `get_or_create_user(discord_id)`: one transaction; returns the user id. -/
def get_or_create_user (did : String) (s : Store) : Store × Nat :=
  match findUserByDiscord s did with
  | some u => (s, u.uid)
  | none =>
    let u : UserR :=
      { uid := s.nextUserId, discordId := did, points := 0, streak := 0,
        lastCompleted := none }
    ({ s with users := s.users ++ [u], nextUserId := s.nextUserId + 1 }, u.uid)

/-- `award_points(user_id, points)`: one transaction. -/
def award_points (uid : Nat) (pts : Nat) (s : Store) : Store :=
  match findUserById s uid with
  | none => s
  | some _ =>
    { s with users := s.users.map (fun v =>
        if v.uid == uid then { v with points := v.points + pts } else v) }

/-- The `.date()` portion of a timestamp, as a day number
(`datetime.now(timezone.utc).date()` etc.). -/
def dayOf (t : Nat) : Nat := t / 86400

/-- The streak computed by `update_streak_and_badges`: the branch on
`user.last_completed` and `days_diff = (today - last_completed.date()).days`.
`today` is a day number. -/
def newStreak (today : Nat) (u : UserR) : Nat :=
  match u.lastCompleted with
  | none => 1
  | some lc =>
    let daysDiff : Int := (today : Int) - (dayOf lc : Int)
    if daysDiff = 1 then u.streak + 1
    else if daysDiff > 1 then 1
    else u.streak

/-- `session.query(Badge).filter_by(user_id=..., name=...).first()`,
as a Boolean. -/
def hasBadge (s : Store) (uid : Nat) (name : Str) : Bool :=
  s.badges.any (fun b => b.userId == uid && b.name == name)

/-- Append one badge row (`session.add(Badge(...))`). -/
def addBadge (s : Store) (uid : Nat) (name : Str) : Store :=
  { s with badges := s.badges ++ [{ name := name, userId := uid }] }

/-- The three badge names, with their thresholds, in source order. -/
def name3 : Str := "3-day-streak".toList
def name7 : Str := "7-day-streak".toList
def name14 : Str := "14-day-streak".toList

/-- `update_streak_and_badges(user_id)`: one transaction.  `now` is the
current UTC timestamp in seconds.  Returns the new store and
`badges_awarded`. -/
def update_streak_and_badges (now : Nat) (uid : Nat) (s : Store) :
    Store × List Str :=
  match findUserById s uid with
  | none => (s, [])
  | some u =>
    let streak' := newStreak (dayOf now) u
    let u' := { u with streak := streak', lastCompleted := some now }
    let s1 := { s with users := s.users.map (fun v =>
        if v.uid == uid then u' else v) }
    let b1 := decide (3 ≤ streak') && !(hasBadge s1 uid name3)
    let s2 := if b1 then addBadge s1 uid name3 else s1
    let b2 := decide (7 ≤ streak') && !(hasBadge s2 uid name7)
    let s3 := if b2 then addBadge s2 uid name7 else s2
    let b3 := decide (14 ≤ streak') && !(hasBadge s3 uid name14)
    let s4 := if b3 then addBadge s3 uid name14 else s3
    (s4, (if b1 then [name3] else []) ++ (if b2 then [name7] else [])
          ++ (if b3 then [name14] else []))

/-! ### The natural-language extractor steps of `add_task` / `edit_task` -/

/-- The separator of the priority marker: `"[Priority:"`. -/
def prioHead : Char := '['
def prioTail : Str := "Priority:".toList

/-- The priority-parsing step shared by `add_task` and `edit_task`:
```
if "[Priority:" in text:
    parts = text.split("[Priority:")
    text = parts[0].strip()
    priority_part = parts[1].strip().rstrip(']')
    if priority_part.capitalize() in ["High", "Medium", "Low"]:
        priority = priority_part.capitalize()
```
Returns the new description and the priority.  The surrounding
`try/except` of the source can never fire: none of the operations above
raises, so there is no error outcome here. -/
def parse_priority_step (text : Str) (prio : Str) : Str × Str :=
  if containsSeq prioHead prioTail text then
    let parts := pySplit prioHead prioTail text
    let desc := trimL (parts.headD [])
    let pp := rstripRB (trimL (parts.getD 1 []))
    if pyCapitalize pp == "High".toList || pyCapitalize pp == "Medium".toList
        || pyCapitalize pp == "Low".toList then
      (desc, pyCapitalize pp)
    else (desc, prio)
  else (text, prio)

/-- Result of `dateutil.parser.parse(date_str, fuzzy=True)`: a wall-clock
timestamp `t` (seconds) and, when the parsed text carried an explicit
timezone, its UTC offset `tz` (seconds). -/
structure ParsedDT where
  t : Int
  tz : Option Int
deriving DecidableEq, Repr

/-- The timezone normalization applied to a parsed due date:
`replace(tzinfo=utc)` when naive (keep the wall clock, read it as UTC),
`astimezone(utc)` when aware (subtract the offset). -/
def normalizeUTC (p : ParsedDT) : Int :=
  match p.tz with
  | none => p.t
  | some off => p.t - off

/-- The due-date step of `add_task` (description after the priority step):
```
due_date = None
if 'by' in task_description:
    parts = task_description.split('by')
    task = parts[0].strip()
    date_str = 'by'.join(parts[1:]).strip()
    due_date = parser.parse(date_str, fuzzy=True)   # may raise
    task_description = task
    ... timezone normalization ...
```
`none` is the `ParseError` outcome (the `except` branch). -/
def parse_due_add (parse : Str → Option ParsedDT) (text : Str) :
    Option (Str × Option Int) :=
  if containsSeq 'b' "y".toList text then
    let parts := pySplit 'b' "y".toList text
    let dateStr := trimL (joinWith "by".toList parts.tail)
    match parse dateStr with
    | none => none
    | some p => some (trimL (parts.headD []), some (normalizeUTC p))
  else some (text, none)

/-- The due-date step of `edit_task`.  Identical to `parse_due_add` in the
`'by' in ...` branch; the `else` branch strips the description and sets
`due_date = None`, clearing any previous due date.  (The source first
initializes `due_date = task.due_date`, but both branches overwrite it.) -/
def parse_due_edit (parse : Str → Option ParsedDT) (text : Str) :
    Option (Str × Option Int) :=
  if containsSeq 'b' "y".toList text then
    let parts := pySplit 'b' "y".toList text
    let dateStr := trimL (joinWith "by".toList parts.tail)
    match parse dateStr with
    | none => none
    | some p => some (trimL (parts.headD []), some (normalizeUTC p))
  else some (trimL text, none)

/-! ### The three lifecycle commands -/

/-- Outcome of `add_task` as seen by the user. -/
inductive AddOutcome where
  /-- Task inserted; carries the new task id. -/
  | ok (tid : Nat)
  /-- `if not task_description:` — missing or empty input (usage message). -/
  | emptyInput
  /-- The due-date `except` branch ("couldn't parse the due date"). -/
  | dateParseError
deriving DecidableEq, Repr

/-- `add_task(ctx, task_description)`.  `raw = none` models a missing
argument; Python's `if not task_description` also catches `""`.
Both parsing steps run before any store access; `get_or_create_user` and
the insertion are each one transaction. -/
def add_task (parse : Str → Option ParsedDT) (now : Nat) (did : String)
    (raw : Option Str) (s : Store) : Store × AddOutcome :=
  match raw with
  | none => (s, .emptyInput)
  | some text0 =>
    if text0 = [] then (s, .emptyInput)
    else
      let pr := parse_priority_step text0 "Medium".toList
      match parse_due_add parse pr.1 with
      | none => (s, .dateParseError)
      | some (desc, due) =>
        let su := get_or_create_user did s
        let t : TaskR :=
          { tid := su.1.nextTaskId, description := desc, dueDate := due,
            completed := false, priority := pr.2, addedAt := now,
            editedAt := none, notified := false, userId := su.2 }
        ({ su.1 with
            tasks := su.1.tasks ++ [t]
            nextTaskId := su.1.nextTaskId + 1 }, .ok t.tid)

/-- `session.query(Task).filter_by(id=task_id, user_id=user_id,
completed=False).first()`'s predicate. -/
def pendingPred (uid tid : Nat) (t : TaskR) : Bool :=
  t.tid == tid && t.userId == uid && !t.completed

/-- Mutate the first list element satisfying `p` (the row returned by
`.first()`), leaving the rest unchanged. -/
def markFirst (p : TaskR → Bool) (f : TaskR → TaskR) : List TaskR → List TaskR
  | [] => []
  | t :: ts => if p t then f t :: ts else t :: markFirst p f ts

/-- Outcome of `edit_task` as seen by the user. -/
inductive EditOutcome where
  | ok
  /-- `if not task_id or not new_description:` (usage message). -/
  | missingArgs
  /-- "No pending task found with ID ..." — the `NotFoundError`. -/
  | notFound
  /-- The due-date `except` branch. -/
  | dateParseError
deriving DecidableEq, Repr

/-- `edit_task(ctx, task_id, new_description)`.  Task id `0` is falsy in
Python, hence `missingArgs`.  The whole edit is a single transaction after
`get_or_create_user`. -/
def edit_task (parse : Str → Option ParsedDT) (now : Nat) (did : String)
    (tid : Nat) (raw : Option Str) (s : Store) : Store × EditOutcome :=
  match raw with
  | none => (s, .missingArgs)
  | some text0 =>
    if tid = 0 ∨ text0 = [] then (s, .missingArgs)
    else
      let su := get_or_create_user did s
      match su.1.tasks.find? (pendingPred su.2 tid) with
      | none => (su.1, .notFound)
      | some t =>
        let pr := parse_priority_step text0 t.priority
        match parse_due_edit parse pr.1 with
        | none => (su.1, .dateParseError)
        | some (desc, due) =>
          let upd := fun v => { v with
            description := desc
            dueDate := due
            priority := pr.2
            editedAt := some now }
          ({ su.1 with
              tasks := markFirst (pendingPred su.2 tid) upd su.1.tasks }, .ok)

/-- Outcome of `done_task` as seen by the user. -/
inductive DoneOutcome where
  /-- Completed; carries `badges_awarded`. -/
  | ok (badges : List Str)
  /-- `if not task_id:` (usage message). -/
  | missingArgs
  /-- "No pending task found with ID ..." — the `NotFoundError`. -/
  | notFound
deriving DecidableEq, Repr

/-- `done_task(ctx, task_id)`: after `get_or_create_user`, THREE separate
transactions run in sequence — (1) mark the task completed, (2)
`update_streak_and_badges`, (3) `award_points(user_id, 10)`. -/
def done_task (now : Nat) (did : String) (tid : Nat) (s : Store) :
    Store × DoneOutcome :=
  if tid = 0 then (s, .missingArgs)
  else
    let su := get_or_create_user did s
    match su.1.tasks.find? (pendingPred su.2 tid) with
    | none => (su.1, .notFound)
    | some _ =>
      let mark := fun v => { v with completed := true }
      let s2 := { su.1 with
        tasks := markFirst (pendingPred su.2 tid) mark su.1.tasks }
      let sb := update_streak_and_badges now su.2 s2
      let s4 := award_points su.2 10 sb.1
      (s4, .ok sb.2)

/-- Outcome of `done_task` when store-level failures are modelled. -/
inductive DoneTxOutcome where
  | ok (badges : List Str)
  | missingArgs
  | notFound
  /-- A transaction raised; `get_session` rolled that transaction back and
  re-raised. -/
  | storeError
deriving DecidableEq, Repr

/-- `done_task` with an injected store failure in each of its three
transactions (`f1`: marking the task, `f2`: streak/badges, `f3`: points).
A failing `get_session` block rolls back exactly its own writes and
re-raises, so the state reverts to the start of that block and the later
blocks never run — earlier, already-committed blocks keep their effects. -/
def done_task_inj (now : Nat) (did : String) (tid : Nat)
    (f1 f2 f3 : Bool) (s : Store) : Store × DoneTxOutcome :=
  if tid = 0 then (s, .missingArgs)
  else
    let su := get_or_create_user did s
    match su.1.tasks.find? (pendingPred su.2 tid) with
    | none => (su.1, .notFound)
    | some _ =>
      if f1 then (su.1, .storeError)
      else
        let mark := fun v => { v with completed := true }
        let s2 := { su.1 with
          tasks := markFirst (pendingPred su.2 tid) mark su.1.tasks }
        if f2 then (s2, .storeError)
        else
          let sb := update_streak_and_badges now su.2 s2
          if f3 then (sb.1, .storeError)
          else (award_points su.2 10 sb.1, .ok sb.2)

/-! ### The reminder sweep -/

/-- Outcome of attempting to deliver one reminder, collapsing user lookup
and the transport: `delivered` — the DM was sent; `forbidden` —
`discord.Forbidden` was raised (recipient blocks DMs) and caught;
`unavailable` — the owning user row or the `bot.get_user` lookup was
missing, so no send was attempted. -/
inductive SendOutcome where
  | delivered
  | forbidden
  | unavailable
deriving DecidableEq, Repr

/-- The due-task query predicate:
`completed == False AND due_date <= now AND notified == False`.
A task with no due date is not selected (SQL `NULL <= now` is not true). -/
def dueSelect (now : Int) (t : TaskR) : Bool :=
  !t.completed &&
    (match t.dueDate with
     | some d => decide (d ≤ now)
     | none => false) && !t.notified

/-- One tick of `check_due_tasks`: query the due tasks, then set
`notified = True` exactly for those whose reminder was delivered.  A
`forbidden` or `unavailable` outcome leaves the flag untouched (the
source's `task.notified = True` line is only reached after a successful
`send`). -/
def check_due_tasks (now : Int) (send : TaskR → SendOutcome) (s : Store) :
    Store :=
  { s with tasks := s.tasks.map (fun t =>
      if dueSelect now t && (send t == .delivered) then
        { t with notified := true }
      else t) }

/-! ### Lemmas about the string primitives -/

/-- `List.isPrefixOf` agrees with `<+:` (characters). -/
theorem isP_iff {l₁ l₂ : Str} : List.isPrefixOf l₁ l₂ = true ↔ l₁ <+: l₂ :=
  List.isPrefixOf_iff_prefix

/-- Skipping `n` characters in `splitAux` is dropping them. -/
theorem splitAux_skip (a : Char) (sep : Str) :
    ∀ (s : Str) (n : Nat), splitAux a sep s n = splitAux a sep (s.drop n) 0
  | [], 0 => rfl
  | [], _ + 1 => rfl
  | _ :: _, 0 => rfl
  | _ :: rest, n + 1 => by
    rw [splitAux, splitAux_skip a sep rest n]
    rfl

/-- Fuelled form of `pySplit_cases` (induction on a length bound). -/
theorem pySplit_cases_aux (a : Char) (sep : Str) :
    ∀ (n : Nat) (s : Str), s.length ≤ n →
    (containsSeq a sep s = false ∧ pySplit a sep s = [s]) ∨
    (∃ pre post, s = pre ++ (a :: sep) ++ post ∧
      containsSeq a sep pre = false ∧
      pySplit a sep s = pre :: pySplit a sep post) := by
  intro n
  induction n with
  | zero =>
    intro s hs
    match s, hs with
    | [], _ => exact Or.inl ⟨rfl, rfl⟩
  | succ n ih =>
    intro s hs
    match s with
    | [] => exact Or.inl ⟨rfl, rfl⟩
    | c :: rest =>
      by_cases hp : List.isPrefixOf (a :: sep) (c :: rest) = true
      · right
        obtain ⟨t, ht⟩ := isP_iff.1 hp
        refine ⟨[], rest.drop sep.length, ?_, rfl, ?_⟩
        · have hdrop : t = (c :: rest).drop (a :: sep).length := by
            rw [← ht, List.drop_left]
          simp only [List.nil_append]
          rw [← ht, hdrop]
          simp [List.drop_succ_cons]
        · show splitAux a sep (c :: rest) 0 = _
          rw [splitAux, if_pos hp, splitAux_skip]
          rfl
      · have hrest : rest.length ≤ n := by
          simp only [List.length_cons] at hs
          omega
        have hrec := ih rest hrest
        have hsplit : pySplit a sep (c :: rest) =
            match pySplit a sep rest with
            | [] => [[c]]
            | p :: ps => (c :: p) :: ps := by
          show splitAux a sep (c :: rest) 0 = _
          rw [splitAux, if_neg hp]
          rfl
        have hcont : containsSeq a sep (c :: rest) =
            (List.isPrefixOf (a :: sep) (c :: rest) || containsSeq a sep rest) := rfl
        rcases hrec with ⟨hc, hsp⟩ | ⟨pre, post, hdec, hcpre, hsp⟩
        · left
          constructor
          · rw [hcont, hc, Bool.or_false, Bool.eq_false_iff]
            exact hp
          · rw [hsplit, hsp]
        · right
          refine ⟨c :: pre, post, ?_, ?_, ?_⟩
          · rw [hdec]
            simp
          · have hcc : containsSeq a sep (c :: pre) =
                (List.isPrefixOf (a :: sep) (c :: pre) || containsSeq a sep pre) := rfl
            rw [hcc, hcpre, Bool.or_false, Bool.eq_false_iff]
            intro hpp
            apply hp
            refine isP_iff.2 (List.IsPrefix.trans (isP_iff.1 hpp) ?_)
            refine ⟨(a :: sep) ++ post, ?_⟩
            rw [hdec]
            simp
          · rw [hsplit, hsp]

/-- The master case split for `pySplit`: either the separator does not
occur and the split is trivial, or the string decomposes at the first
occurrence (the part before it is separator-free). -/
theorem pySplit_cases (a : Char) (sep : Str) (s : Str) :
    (containsSeq a sep s = false ∧ pySplit a sep s = [s]) ∨
    (∃ pre post, s = pre ++ (a :: sep) ++ post ∧
      containsSeq a sep pre = false ∧
      pySplit a sep s = pre :: pySplit a sep post) :=
  pySplit_cases_aux a sep s.length s (Nat.le_refl _)

/-- `pySplit` never returns the empty list. -/
theorem pySplit_ne_nil (a : Char) (sep : Str) (s : Str) :
    pySplit a sep s ≠ [] := by
  rcases pySplit_cases a sep s with ⟨_, h⟩ | ⟨pre, post, _, _, h⟩ <;>
    simp [h]

/-- If the separator occurs in `pre ++ sep ++ post` trivially. -/
theorem containsSeq_append_sep (a : Char) (sep : Str) (pre post : Str) :
    containsSeq a sep (pre ++ (a :: sep) ++ post) = true := by
  induction pre with
  | nil =>
    show (List.isPrefixOf (a :: sep) ((a :: sep) ++ post) || _) = true
    rw [Bool.or_eq_true]
    exact Or.inl (isP_iff.2 (List.prefix_append _ _))
  | cons c cs ih =>
    show (_ || containsSeq a sep (cs ++ (a :: sep) ++ post)) = true
    rw [Bool.or_eq_true]
    exact Or.inr ih

/-- A separator-free string splits trivially. -/
theorem pySplit_of_not_contains (a : Char) (sep : Str) (s : Str)
    (h : containsSeq a sep s = false) : pySplit a sep s = [s] := by
  rcases pySplit_cases a sep s with ⟨_, hs⟩ | ⟨pre, post, hdec, _, _⟩
  · exact hs
  · rw [hdec, containsSeq_append_sep] at h
    cases h

/-- Rebuilding the split with the separator gives the string back
(Python `sep.join(s.split(sep)) == s`). -/
theorem joinWith_pySplit_aux (a : Char) (sep : Str) :
    ∀ (n : Nat) (s : Str), s.length ≤ n →
    joinWith (a :: sep) (pySplit a sep s) = s := by
  intro n
  induction n with
  | zero =>
    intro s hs
    match s, hs with
    | [], _ => rfl
  | succ n ih =>
    intro s hs
    rcases pySplit_cases a sep s with ⟨_, hsp⟩ | ⟨pre, post, hdec, _, hsp⟩
    · rw [hsp]
      rfl
    · rw [hsp]
      have hpost : joinWith (a :: sep) (pySplit a sep post) = post := by
        refine ih post ?_
        have : s.length = pre.length + (sep.length + 1) + post.length := by
          rw [hdec]
          simp
          omega
        omega
      obtain ⟨q, qs, hq⟩ : ∃ q qs, pySplit a sep post = q :: qs := by
        cases hqq : pySplit a sep post with
        | nil => exact absurd hqq (pySplit_ne_nil a sep post)
        | cons q qs => exact ⟨q, qs, rfl⟩
      rw [hq]
      show pre ++ (a :: sep) ++ joinWith (a :: sep) (q :: qs) = s
      rw [← hq, hpost, hdec]

/-- Rebuilding the split with the separator gives the string back
(Python `sep.join(s.split(sep)) == s`). -/
theorem joinWith_pySplit (a : Char) (sep : Str) (s : Str) :
    joinWith (a :: sep) (pySplit a sep s) = s :=
  joinWith_pySplit_aux a sep s.length s (Nat.le_refl _)

/-- `containsSeq` is exactly infix containment of the pattern. -/
theorem containsSeq_infix_iff (a : Char) (sep : Str) (s : Str) :
    containsSeq a sep s = true ↔ (a :: sep) <:+: s := by
  induction s with
  | nil =>
    simp only [containsSeq]
    constructor
    · intro h
      cases h
    · intro h
      have := h.length_le
      simp at this
  | cons c rest ih =>
    show (List.isPrefixOf (a :: sep) (c :: rest) || containsSeq a sep rest) = true ↔ _
    rw [Bool.or_eq_true, List.infix_cons_iff, isP_iff, ih]

/-- Substring containment is monotone under infix. -/
theorem containsSeq_false_of_infix {a : Char} {sep : Str} {t s : Str}
    (hts : t <:+: s) (h : containsSeq a sep s = false) :
    containsSeq a sep t = false := by
  rw [Bool.eq_false_iff]
  intro hc
  rw [Bool.eq_false_iff] at h
  exact h ((containsSeq_infix_iff a sep s).2
    (List.IsInfix.trans ((containsSeq_infix_iff a sep t).1 hc) hts))

/-- `trimL s` is an infix of `s`. -/
theorem trimL_within (s : Str) : trimL s <:+: s := by
  unfold trimL
  have h1 : s.dropWhile Char.isWhitespace <:+ s := List.dropWhile_suffix _
  have h2 : (s.dropWhile Char.isWhitespace).reverse.dropWhile Char.isWhitespace
      <:+ (s.dropWhile Char.isWhitespace).reverse := List.dropWhile_suffix _
  have h3 := List.IsSuffix.reverse h2
  rw [List.reverse_reverse] at h3
  exact List.IsInfix.trans h3.isInfix h1.isInfix

/-- A prefix of a decomposed string is an infix. -/
theorem headPre_within (pre mid post : Str) : pre <:+: pre ++ mid ++ post :=
  ⟨[], mid ++ post, by simp⟩

/-- A string containing a (non-empty) pattern is non-empty. -/
theorem containsSeq_ne_nil {a : Char} {sep : Str} {s : Str}
    (h : containsSeq a sep s = true) : s ≠ [] := by
  intro hs
  subst hs
  cases h

/-- The description produced by the priority step is an infix of its
input: the step only selects the part before the marker and trims it. -/
theorem parse_priority_desc_within (text prio : Str) :
    (parse_priority_step text prio).1 <:+: text := by
  unfold parse_priority_step
  by_cases hm : containsSeq prioHead prioTail text = true
  · rw [if_pos hm]
    rcases pySplit_cases prioHead prioTail text with ⟨hc, _⟩ | ⟨pre, post, hdec, _, hsp⟩
    · rw [hc] at hm
      cases hm
    · have hhead : (pySplit prioHead prioTail text).headD [] = pre := by
        rw [hsp]
        rfl
      have hpre : pre <:+: text := by
        rw [hdec]
        exact headPre_within pre _ post
      by_cases hv : (pyCapitalize (rstripRB (trimL ((pySplit prioHead prioTail text).getD 1 [])))
            == "High".toList
          || pyCapitalize (rstripRB (trimL ((pySplit prioHead prioTail text).getD 1 [])))
            == "Medium".toList
          || pyCapitalize (rstripRB (trimL ((pySplit prioHead prioTail text).getD 1 [])))
            == "Low".toList) = true
      · rw [if_pos hv]
        simp only [hhead]
        exact List.IsInfix.trans (trimL_within pre) hpre
      · rw [if_neg hv]
        simp only [hhead]
        exact List.IsInfix.trans (trimL_within pre) hpre
  · rw [if_neg hm]

/-- `markFirst` after `find?`: the list decomposes around the found
element, everything before it fails the predicate, and `markFirst`
rewrites exactly that element. -/
theorem markFirst_of_find? {p : TaskR → Bool} {f : TaskR → TaskR}
    {l : List TaskR} {t : TaskR} (h : l.find? p = some t) :
    ∃ l₁ l₂, l = l₁ ++ t :: l₂ ∧ (∀ x ∈ l₁, p x = false) ∧ p t = true ∧
      markFirst p f l = l₁ ++ f t :: l₂ := by
  induction l with
  | nil => cases h
  | cons x xs ih =>
    by_cases hx : p x = true
    · have hxt : x = t := by
        rw [List.find?_cons_of_pos _ hx] at h
        exact Option.some.inj h
      subst hxt
      refine ⟨[], xs, rfl, ?_, hx, ?_⟩
      · intro y hy
        cases hy
      · show markFirst p f (x :: xs) = _
        rw [markFirst, if_pos hx]
        rfl
    · have hx' : p x = false := Bool.eq_false_iff.2 hx
      rw [List.find?_cons_of_neg _ hx] at h
      obtain ⟨l₁, l₂, hl, hall, hpt, hm⟩ := ih h
      refine ⟨x :: l₁, l₂, by rw [hl]; rfl, ?_, hpt, ?_⟩
      · intro y hy
        rcases List.mem_cons.1 hy with hy | hy
        · rw [hy]; exact hx'
        · exact hall y hy
      · show markFirst p f (x :: xs) = _
        rw [markFirst, if_neg hx, hm]
        rfl

/-- Pointwise view of `markFirst`: lengths agree and every position is
either untouched or rewritten by `f` (and then satisfied `p`). -/
theorem markFirst_getElem (p : TaskR → Bool) (f : TaskR → TaskR) :
    ∀ (l : List TaskR), (markFirst p f l).length = l.length ∧
      ∀ (i : Nat) (h : i < l.length) (h' : i < (markFirst p f l).length),
        (markFirst p f l)[i] = l[i] ∨
          (p l[i] = true ∧ (markFirst p f l)[i] = f l[i]) := by
  intro l
  induction l with
  | nil => exact ⟨rfl, by intro i h; cases h⟩
  | cons x xs ih =>
    by_cases hx : p x = true
    · constructor
      · show (if p x then f x :: xs else x :: markFirst p f xs).length = _
        rw [if_pos hx]
        rfl
      · intro i h h'
        have hm : markFirst p f (x :: xs) = f x :: xs := by
          show (if p x then f x :: xs else x :: markFirst p f xs) = _
          rw [if_pos hx]
        match i with
        | 0 =>
          right
          refine ⟨hx, ?_⟩
          simp [hm]
        | i + 1 =>
          left
          simp only [hm]
          simp
    · have hm : markFirst p f (x :: xs) = x :: markFirst p f xs := by
        show (if p x then f x :: xs else x :: markFirst p f xs) = _
        rw [if_neg hx]
      constructor
      · rw [hm]
        simp [ih.1]
      · intro i h h'
        match i with
        | 0 =>
          left
          simp [hm]
        | i + 1 =>
          have hi : i < xs.length := by
            simp only [List.length_cons] at h
            omega
          have hi' : i < (markFirst p f xs).length := by
            rw [ih.1]
            exact hi
          rcases ih.2 i hi hi' with hc | ⟨hp1, hc⟩
          · left
            simp [hm, hc]
          · right
            refine ⟨by simpa using hp1, ?_⟩
            simp [hm, hc]

/-- Looking a user up again after a field-preserving rewrite of the user
rows: if `g` preserves `discordId` and `uid`, the lookup finds the
rewritten row. -/
theorem findUser_map (l : List UserR) (g : UserR → UserR) (did : String)
    (hg : ∀ v, (g v).discordId = v.discordId) :
    (l.map g).find? (fun u => u.discordId == did)
      = Option.map g (l.find? (fun u => u.discordId == did)) := by
  rw [List.find?_map]
  have hpred : ((fun u : UserR => u.discordId == did) ∘ g)
      = (fun u : UserR => u.discordId == did) := by
    funext v
    simp [Function.comp, hg v]
  rw [hpred]

/-- `findUserById` after mapping a `uid`-preserving function. -/
theorem findUserById_map (l : List UserR) (g : UserR → UserR) (uid : Nat)
    (hg : ∀ v, (g v).uid = v.uid) :
    (l.map g).find? (fun u => u.uid == uid)
      = Option.map g (l.find? (fun u => u.uid == uid)) := by
  rw [List.find?_map]
  have hpred : ((fun u : UserR => u.uid == uid) ∘ g)
      = (fun u : UserR => u.uid == uid) := by
    funext v
    simp [Function.comp, hg v]
  rw [hpred]

/-- If the user exists, `get_or_create_user` changes nothing. -/
theorem get_or_create_user_of_found {s : Store} {did : String} {u : UserR}
    (h : findUserByDiscord s did = some u) :
    get_or_create_user did s = (s, u.uid) := by
  unfold get_or_create_user
  rw [h]

/-- A found user has the looked-up id. -/
theorem findUserById_uid {s : Store} {uid : Nat} {u : UserR}
    (h : findUserById s uid = some u) : u.uid = uid := by
  have := List.find?_some h
  simpa using this

/-- The `users` table after `update_streak_and_badges`: the badge stages
leave it alone, so it is the pointwise rewrite of the streak stage. -/
theorem update_streak_users (now uid : Nat) (s : Store) (u : UserR)
    (hu : findUserById s uid = some u) :
    (update_streak_and_badges now uid s).1.users
      = s.users.map (fun v => if v.uid == uid then
          { u with streak := newStreak (dayOf now) u, lastCompleted := some now }
        else v) := by
  simp only [update_streak_and_badges, hu]
  cases (decide (3 ≤ newStreak (dayOf now) u) && _ : Bool) <;>
    cases (decide (7 ≤ newStreak (dayOf now) u) && _ : Bool) <;>
      cases (decide (14 ≤ newStreak (dayOf now) u) && _ : Bool) <;>
        rfl

/-- `newStreak` on a user with no completion date. -/
theorem newStreak_none {today : Nat} {u : UserR} (h : u.lastCompleted = none) :
    newStreak today u = 1 := by
  unfold newStreak
  rw [h]

/-- `newStreak` on a user with a stored completion date. -/
theorem newStreak_some {today : Nat} {u : UserR} {lc : Nat}
    (h : u.lastCompleted = some lc) :
    newStreak today u =
      if (today : Int) - (dayOf lc : Int) = 1 then u.streak + 1
      else if (today : Int) - (dayOf lc : Int) > 1 then 1
      else u.streak := by
  unfold newStreak
  rw [h]

/-- C1: `update_streak_and_badges` stores `last_completed = now` and the
streak follows the `days_diff` branches of the source. -/
theorem c1_streak_rule (now uid : Nat) (s : Store) (u : UserR)
    (hu : findUserById s uid = some u) :
    ∃ u', findUserById (update_streak_and_badges now uid s).1 uid = some u' ∧
      u'.lastCompleted = some now ∧
      (u.lastCompleted = none → u'.streak = 1) ∧
      (∀ lc, u.lastCompleted = some lc →
        (((dayOf now : Int) - (dayOf lc : Int) = 1 → u'.streak = u.streak + 1) ∧
         ((dayOf now : Int) - (dayOf lc : Int) > 1 → u'.streak = 1) ∧
         ((dayOf now : Int) - (dayOf lc : Int) = 0 → u'.streak = u.streak))) := by
  have huid : u.uid = uid := findUserById_uid hu
  refine ⟨{ u with streak := newStreak (dayOf now) u, lastCompleted := some now },
    ?_, rfl, ?_, ?_⟩
  · show (update_streak_and_badges now uid s).1.users.find? _ = _
    rw [update_streak_users now uid s u hu]
    rw [findUserById_map]
    · show Option.map _ (findUserById s uid) = _
      rw [hu]
      simp [huid]
    · intro v
      by_cases hv : (v.uid == uid) = true
      · have hvu : v.uid = uid := by simpa using hv
        rw [if_pos hv]
        show u.uid = v.uid
        rw [huid, hvu]
      · simp [hv]
  · intro hnone
    show newStreak (dayOf now) u = 1
    exact newStreak_none hnone
  · intro lc hlc
    refine ⟨?_, ?_, ?_⟩ <;> intro hdiff <;>
      · show newStreak (dayOf now) u = _
        rw [newStreak_some hlc]
        split_ifs <;> omega

/-- Rewriting the user rows does not change badge membership. -/
theorem hasBadge_users_irrel (us : List UserR) (s : Store) (uid : Nat)
    (nm : Str) : hasBadge { s with users := us } uid nm = hasBadge s uid nm :=
  rfl

/-- Badge membership after `addBadge`. -/
theorem hasBadge_addBadge (s : Store) (v uid : Nat) (nm nm' : Str) :
    hasBadge (addBadge s v nm) uid nm'
      = (hasBadge s uid nm' || ((v == uid) && (nm == nm'))) := by
  simp [hasBadge, addBadge]

/-- The badge rows after `addBadge`. -/
theorem badges_addBadge (s : Store) (uid : Nat) (nm : Str) :
    (addBadge s uid nm).badges = s.badges ++ [{ name := nm, userId := uid }] :=
  rfl

/-- The badge rows are untouched by a user-row rewrite. -/
theorem badges_users_irrel (us : List UserR) (s : Store) :
    ({ s with users := us } : Store).badges = s.badges :=
  rfl

/-- Explicit form of one `update_streak_and_badges` call: the returned
list and the badge table, in terms of the updated streak and the badges
held BEFORE the call. -/
theorem update_streak_spec (now uid : Nat) (s : Store) (u : UserR)
    (hu : findUserById s uid = some u) :
    (update_streak_and_badges now uid s).2 =
      (if 3 ≤ newStreak (dayOf now) u ∧ hasBadge s uid name3 = false
        then [name3] else []) ++
      (if 7 ≤ newStreak (dayOf now) u ∧ hasBadge s uid name7 = false
        then [name7] else []) ++
      (if 14 ≤ newStreak (dayOf now) u ∧ hasBadge s uid name14 = false
        then [name14] else []) ∧
    (update_streak_and_badges now uid s).1.badges =
      s.badges ++
      ((if 3 ≤ newStreak (dayOf now) u ∧ hasBadge s uid name3 = false
          then [({ name := name3, userId := uid } : BadgeR)] else []) ++
       (if 7 ≤ newStreak (dayOf now) u ∧ hasBadge s uid name7 = false
          then [({ name := name7, userId := uid } : BadgeR)] else []) ++
       (if 14 ≤ newStreak (dayOf now) u ∧ hasBadge s uid name14 = false
          then [({ name := name14, userId := uid } : BadgeR)] else [])) := by
  have h37 : (name3 == name7) = false := by decide
  have h314 : (name3 == name14) = false := by decide
  have h714 : (name7 == name14) = false := by decide
  simp only [update_streak_and_badges, hu]
  by_cases h3 : 3 ≤ newStreak (dayOf now) u <;>
    by_cases h7 : 7 ≤ newStreak (dayOf now) u <;>
      by_cases h14 : 14 ≤ newStreak (dayOf now) u <;>
        by_cases hB3 : hasBadge s uid name3 = true <;>
          by_cases hB7 : hasBadge s uid name7 = true <;>
            by_cases hB14 : hasBadge s uid name14 = true <;>
              simp [h3, h7, h14, hB3, hB7, hB14, hasBadge_users_irrel,
                hasBadge_addBadge, badges_addBadge, badges_users_irrel,
                h37, h314, h714]

/-- Membership in a one-element conditional list. -/
theorem mem_ite_singleton (C : Prop) [Decidable C] (a nm : Str) :
    (nm ∈ if C then [a] else ([] : List Str)) ↔ (nm = a ∧ C) := by
  by_cases hC : C <;> simp [hC]

/-- In a duplicate-free list each value is counted at most once. -/
theorem countP_beq_le_one_of_nodup {l : List Str} (h : l.Nodup) (nm : Str) :
    l.countP (fun n => n == nm) ≤ 1 := by
  induction l with
  | nil => simp
  | cons x xs ih =>
    rw [List.countP_cons]
    rcases List.nodup_cons.1 h with ⟨hx, hxs⟩
    by_cases hbe : (x == nm) = true
    · have hxnm : x = nm := by simpa using hbe
      have h0 : xs.countP (fun n => n == nm) = 0 := by
        rw [List.countP_eq_zero]
        intro a ha hab
        have haa : a = nm := by simpa using hab
        exact hx (by rw [hxnm, ← haa]; exact ha)
      simp [hbe, h0]
    · have hbe' : (x == nm) = false := Bool.eq_false_iff.2 hbe
      have := ih hxs
      simp only [hbe', if_false, Bool.false_eq_true]
      omega

/-- A value not in the list is counted zero times. -/
theorem countP_beq_eq_zero {l : List Str} {nm : Str} (h : nm ∉ l) :
    l.countP (fun n => n == nm) = 0 := by
  rw [List.countP_eq_zero]
  intro a ha hab
  have haa : a = nm := by simpa using hab
  exact h (haa ▸ ha)

/-- C2: badge awarding in `update_streak_and_badges` — the returned list
in ascending threshold order, the awarded-iff condition, the rows created,
and preservation of at-most-one-badge-per-name. -/
theorem c2_badge_rule (now uid : Nat) (s : Store) (u : UserR)
    (hu : findUserById s uid = some u) :
    (update_streak_and_badges now uid s).2 =
      (if 3 ≤ newStreak (dayOf now) u ∧ hasBadge s uid name3 = false
        then [name3] else []) ++
      (if 7 ≤ newStreak (dayOf now) u ∧ hasBadge s uid name7 = false
        then [name7] else []) ++
      (if 14 ≤ newStreak (dayOf now) u ∧ hasBadge s uid name14 = false
        then [name14] else []) ∧
    (∀ nm, nm ∈ (update_streak_and_badges now uid s).2 ↔
      ((nm = name3 ∧ 3 ≤ newStreak (dayOf now) u ∨
        nm = name7 ∧ 7 ≤ newStreak (dayOf now) u ∨
        nm = name14 ∧ 14 ≤ newStreak (dayOf now) u) ∧
       hasBadge s uid nm = false)) ∧
    ((update_streak_and_badges now uid s).1.badges
       = s.badges ++ (update_streak_and_badges now uid s).2.map
          (fun nm => { name := nm, userId := uid })) ∧
    (∀ nm, s.badges.countP (fun b => b.userId == uid && b.name == nm) ≤ 1 →
       (update_streak_and_badges now uid s).1.badges.countP
         (fun b => b.userId == uid && b.name == nm) ≤ 1) := by
  obtain ⟨haw, hbd⟩ := update_streak_spec now uid s u hu
  have hne37 : name3 ≠ name7 := by decide
  have hne314 : name3 ≠ name14 := by decide
  have hne714 : name7 ≠ name14 := by decide
  have hmem : ∀ nm, nm ∈ (update_streak_and_badges now uid s).2 ↔
      ((nm = name3 ∧ 3 ≤ newStreak (dayOf now) u ∨
        nm = name7 ∧ 7 ≤ newStreak (dayOf now) u ∨
        nm = name14 ∧ 14 ≤ newStreak (dayOf now) u) ∧
       hasBadge s uid nm = false) := by
    intro nm
    rw [haw]
    simp only [List.mem_append, mem_ite_singleton]
    constructor
    · rintro ((⟨rfl, h, hB⟩ | ⟨rfl, h, hB⟩) | ⟨rfl, h, hB⟩)
      · exact ⟨Or.inl ⟨rfl, h⟩, hB⟩
      · exact ⟨Or.inr (Or.inl ⟨rfl, h⟩), hB⟩
      · exact ⟨Or.inr (Or.inr ⟨rfl, h⟩), hB⟩
    · rintro ⟨(⟨rfl, h⟩ | ⟨rfl, h⟩ | ⟨rfl, h⟩), hB⟩
      · exact Or.inl (Or.inl ⟨rfl, h, hB⟩)
      · exact Or.inl (Or.inr ⟨rfl, h, hB⟩)
      · exact Or.inr ⟨rfl, h, hB⟩
  have hnd : (update_streak_and_badges now uid s).2.Nodup := by
    rw [haw]
    by_cases c3 : 3 ≤ newStreak (dayOf now) u ∧ hasBadge s uid name3 = false <;>
      by_cases c7 : 7 ≤ newStreak (dayOf now) u ∧ hasBadge s uid name7 = false <;>
        by_cases c14 : 14 ≤ newStreak (dayOf now) u ∧
            hasBadge s uid name14 = false <;>
          simp [c3, c7, c14, hne37, hne314, hne714]
  have hmap : (update_streak_and_badges now uid s).1.badges
      = s.badges ++ (update_streak_and_badges now uid s).2.map
          (fun nm => { name := nm, userId := uid }) := by
    rw [hbd, haw]
    by_cases c3 : 3 ≤ newStreak (dayOf now) u ∧ hasBadge s uid name3 = false <;>
      by_cases c7 : 7 ≤ newStreak (dayOf now) u ∧ hasBadge s uid name7 = false <;>
        by_cases c14 : 14 ≤ newStreak (dayOf now) u ∧
            hasBadge s uid name14 = false <;>
          simp [c3, c7, c14]
  refine ⟨haw, hmem, hmap, ?_⟩
  intro nm hc
  rw [hmap, List.countP_append, List.countP_map]
  have hcomp : ((fun b : BadgeR => b.userId == uid && b.name == nm)
      ∘ (fun n : Str => { name := n, userId := uid })) = fun n : Str => n == nm := by
    funext n
    simp [Function.comp]
  rw [hcomp]
  by_cases hmm : nm ∈ (update_streak_and_badges now uid s).2
  · have hB : hasBadge s uid nm = false := ((hmem nm).1 hmm).2
    have h0 : s.badges.countP (fun b => b.userId == uid && b.name == nm) = 0 := by
      rw [List.countP_eq_zero]
      unfold hasBadge at hB
      exact List.any_eq_false.1 hB
    have hcnt := countP_beq_le_one_of_nodup hnd nm
    omega
  · have h0 := countP_beq_eq_zero hmm
    omega

/-! ### Concrete fixtures for witnesses and counterexamples -/

/-- A user who last completed a task on day 1 with a 5-day streak. -/
def uW : UserR :=
  { uid := 1, discordId := "w", points := 0, streak := 5,
    lastCompleted := some 86400 }

/-- Store holding only `uW`. -/
def sW : Store :=
  { users := [uW], tasks := [], badges := [], nextUserId := 2, nextTaskId := 1 }

/-- A user on a 13-day streak (last completion on day 1), no badges yet. -/
def uW2 : UserR :=
  { uid := 1, discordId := "w", points := 0, streak := 13,
    lastCompleted := some 86400 }

/-- Store holding only `uW2`. -/
def sW2 : Store :=
  { users := [uW2], tasks := [], badges := [], nextUserId := 2, nextTaskId := 1 }

/-- Witness for C1 at a concrete input: completion on day 2 after a last
completion on day 1 increments the streak. -/
theorem c1_streak_rule_witness :
    findUserById sW 1 = some uW ∧
    (∃ u', findUserById (update_streak_and_badges 172800 1 sW).1 1 = some u' ∧
      u'.lastCompleted = some 172800 ∧
      (uW.lastCompleted = none → u'.streak = 1) ∧
      (∀ lc, uW.lastCompleted = some lc →
        (((dayOf 172800 : Int) - (dayOf lc : Int) = 1 → u'.streak = uW.streak + 1) ∧
         ((dayOf 172800 : Int) - (dayOf lc : Int) > 1 → u'.streak = 1) ∧
         ((dayOf 172800 : Int) - (dayOf lc : Int) = 0 → u'.streak = uW.streak)))) :=
  ⟨by decide, c1_streak_rule 172800 1 sW uW (by decide)⟩

/-- Witness for C2 at a concrete input: a user reaching streak 14 with no
badges is awarded all three badges in one call, in ascending order. -/
theorem c2_badge_rule_witness :
    findUserById sW2 1 = some uW2 ∧
    ((update_streak_and_badges 172800 1 sW2).2 =
      (if 3 ≤ newStreak (dayOf 172800) uW2 ∧ hasBadge sW2 1 name3 = false
        then [name3] else []) ++
      (if 7 ≤ newStreak (dayOf 172800) uW2 ∧ hasBadge sW2 1 name7 = false
        then [name7] else []) ++
      (if 14 ≤ newStreak (dayOf 172800) uW2 ∧ hasBadge sW2 1 name14 = false
        then [name14] else []) ∧
    (∀ nm, nm ∈ (update_streak_and_badges 172800 1 sW2).2 ↔
      ((nm = name3 ∧ 3 ≤ newStreak (dayOf 172800) uW2 ∨
        nm = name7 ∧ 7 ≤ newStreak (dayOf 172800) uW2 ∨
        nm = name14 ∧ 14 ≤ newStreak (dayOf 172800) uW2) ∧
       hasBadge sW2 1 nm = false)) ∧
    ((update_streak_and_badges 172800 1 sW2).1.badges
       = sW2.badges ++ (update_streak_and_badges 172800 1 sW2).2.map
          (fun nm => { name := nm, userId := 1 })) ∧
    (∀ nm, sW2.badges.countP (fun b => b.userId == 1 && b.name == nm) ≤ 1 →
       (update_streak_and_badges 172800 1 sW2).1.badges.countP
         (fun b => b.userId == 1 && b.name == nm) ≤ 1)) :=
  ⟨by decide, c2_badge_rule 172800 1 sW2 uW2 (by decide)⟩

/-- The three badges really are returned on that witness input. -/
theorem c2_badge_concrete :
    (update_streak_and_badges 172800 1 sW2).2 = [name3, name7, name14] := by
  decide

/-- A pending task of user 1 that was due at time 0 and never notified. -/
def tW : TaskR :=
  { tid := 1, description := "t".toList, dueDate := some 0, completed := false,
    priority := "Medium".toList, addedAt := 0, editedAt := none,
    notified := false, userId := 1 }

/-- Store holding `uW` and the pending due task `tW`. -/
def sWr : Store :=
  { users := [uW], tasks := [tW], badges := [], nextUserId := 2, nextTaskId := 2 }

/-- The C4 sentence as stated: every selected task (pending, due, not yet
notified) gets `notified = true` when the reminder is delivered OR when
the transport reports the recipient blocks messages. -/
def ClaimC4 : Prop :=
  ∀ (now : Int) (send : TaskR → SendOutcome) (s : Store) (i : Nat)
    (h : i < s.tasks.length)
    (h' : i < (check_due_tasks now send s).tasks.length),
    dueSelect now s.tasks[i] = true →
    (send s.tasks[i] = SendOutcome.delivered ∨
      send s.tasks[i] = SendOutcome.forbidden) →
    ((check_due_tasks now send s).tasks[i]).notified = true

/-- C4 counterexample: on a `discord.Forbidden` (blocked) outcome the
source catches the exception BEFORE `task.notified = True` runs, so the
flag stays `false` — the claim's "or on a transport-reported
cannot-deliver outcome due to the recipient blocking messages" is false. -/
theorem c4_counterexample : ¬ ClaimC4 := by
  intro h
  have hc := h 0 (fun _ => SendOutcome.forbidden) sWr 0 (by decide) (by decide)
    (by decide) (Or.inr rfl)
  revert hc
  decide

/-- C4 amended: the sweep selects exactly the pending/due/unnotified
tasks; `notified` becomes `true` ONLY on successful delivery; a blocked
or unavailable recipient leaves the task untouched (it is re-queried on
later ticks); `notified` never goes back to `false`, and a delivered task
is excluded from every later sweep. -/
theorem c4_amended (now : Int) (send : TaskR → SendOutcome) (s : Store)
    (i : Nat) (h : i < s.tasks.length)
    (h' : i < (check_due_tasks now send s).tasks.length) :
    (check_due_tasks now send s).tasks.length = s.tasks.length ∧
    (dueSelect now s.tasks[i] = true → send s.tasks[i] = SendOutcome.delivered →
      (check_due_tasks now send s).tasks[i]
        = { s.tasks[i] with notified := true }) ∧
    ((dueSelect now s.tasks[i] = false ∨ send s.tasks[i] ≠ SendOutcome.delivered) →
      (check_due_tasks now send s).tasks[i] = s.tasks[i]) ∧
    (s.tasks[i].notified = true →
      ((check_due_tasks now send s).tasks[i]).notified = true) ∧
    (dueSelect now s.tasks[i] = true → send s.tasks[i] = SendOutcome.delivered →
      ∀ now2, dueSelect now2 ((check_due_tasks now send s).tasks[i]) = false) := by
  have hmap : (check_due_tasks now send s).tasks = s.tasks.map
      (fun t => if dueSelect now t && (send t == SendOutcome.delivered) then
        { t with notified := true } else t) := rfl
  refine ⟨by rw [hmap]; exact List.length_map .., ?_, ?_, ?_, ?_⟩
  · intro hsel hsend
    simp only [hmap, List.getElem_map]
    rw [if_pos]
    rw [hsel, hsend]
    rfl
  · intro hcase
    simp only [hmap, List.getElem_map]
    rw [if_neg]
    intro hcond
    rw [Bool.and_eq_true] at hcond
    rcases hcase with hc | hc
    · rw [hc] at hcond
      exact Bool.false_ne_true hcond.1
    · exact hc (by simpa using hcond.2)
  · intro hnot
    simp only [hmap, List.getElem_map]
    by_cases hcond : (dueSelect now s.tasks[i]
        && (send s.tasks[i] == SendOutcome.delivered)) = true
    · rw [if_pos hcond]
    · rw [if_neg hcond]
      exact hnot
  · intro hsel hsend now2
    simp only [hmap, List.getElem_map]
    rw [if_pos (by rw [hsel, hsend]; rfl)]
    unfold dueSelect
    simp

/-- Witness for the amended C4 at a concrete delivered reminder. -/
theorem c4_amended_witness :
    (check_due_tasks 0 (fun _ => SendOutcome.delivered) sWr).tasks.length
        = sWr.tasks.length ∧
    (check_due_tasks 0 (fun _ => SendOutcome.delivered) sWr).tasks.get
        ⟨0, by decide⟩
        = { sWr.tasks.get ⟨0, by decide⟩ with notified := true } ∧
    (∀ now2, dueSelect now2
        ((check_due_tasks 0 (fun _ => SendOutcome.delivered) sWr).tasks.get
          ⟨0, by decide⟩)
      = false) := by
  have hc := c4_amended 0 (fun _ => SendOutcome.delivered) sWr 0 (by decide)
    (by decide)
  exact ⟨hc.1, hc.2.1 (by decide) rfl, hc.2.2.2.2 (by decide) rfl⟩

/-- The C5 sentence as stated, for `CompleteTask`: with store failures
injected into any of its transactions, the final store is either the
initial one (nothing applied) or the fully-updated one (everything
applied). -/
def ClaimC5 : Prop :=
  ∀ (now : Nat) (did : String) (tid : Nat) (f1 f2 f3 : Bool) (s : Store),
    (done_task_inj now did tid f1 f2 f3 s).1 = s ∨
    (done_task_inj now did tid f1 f2 f3 s).1 = (done_task now did tid s).1

/-- C5 counterexample: fail only the third transaction (the `+10` points
award).  The task stays completed and the streak/badge update stays
committed, but the points are missing — a state that is neither the
initial store nor the fully-updated one. -/
theorem c5_counterexample : ¬ ClaimC5 := by
  intro h
  rcases h 0 "w" 1 false false true sWr with hc | hc <;> revert hc <;> decide

/-- The transaction boundaries of one `done_task` call: initial store,
after `get_or_create_user`, after marking the task complete, after
`update_streak_and_badges`, after `award_points`. -/
def done_task_stages (now : Nat) (did : String) (tid : Nat) (s : Store) :
    List Store :=
  if tid = 0 then [s]
  else
    let su := get_or_create_user did s
    match su.1.tasks.find? (pendingPred su.2 tid) with
    | none => [s, su.1]
    | some _ =>
      let mark := fun v => { v with completed := true }
      let s2 := { su.1 with
        tasks := markFirst (pendingPred su.2 tid) mark su.1.tasks }
      let s3 := (update_streak_and_badges now su.2 s2).1
      [s, su.1, s2, s3, award_points su.2 10 s3]

/-- C5 amended: each individual `get_session` transaction is atomic, so
with failures injected anywhere the reachable states are exactly the
transaction boundaries of `done_task` (a failure keeps every earlier
transaction committed); with no failure the call agrees with `done_task`,
whose final state is the last boundary. -/
theorem c5_amended (now : Nat) (did : String) (tid : Nat)
    (f1 f2 f3 : Bool) (s : Store) :
    (done_task_inj now did tid f1 f2 f3 s).1 ∈ done_task_stages now did tid s ∧
    (done_task now did tid s).1 ∈ done_task_stages now did tid s ∧
    (f1 = false → f2 = false → f3 = false →
      (done_task_inj now did tid f1 f2 f3 s).1 = (done_task now did tid s).1) := by
  by_cases h0 : tid = 0
  · simp [done_task_inj, done_task, done_task_stages, h0]
  · simp only [done_task_inj, done_task, done_task_stages, if_neg h0]
    cases hf : (get_or_create_user did s).1.tasks.find?
        (pendingPred (get_or_create_user did s).2 tid) with
    | none => simp
    | some t => cases f1 <;> cases f2 <;> cases f3 <;> simp

/-- Witness for the amended C5: the failure-free run and a run failing at
the points transaction both land on transaction boundaries. -/
theorem c5_amended_witness :
    (done_task_inj 0 "w" 1 false false true sWr).1
        ∈ done_task_stages 0 "w" 1 sWr ∧
    (done_task_inj 0 "w" 1 false false false sWr).1
        = (done_task 0 "w" 1 sWr).1 :=
  ⟨(c5_amended 0 "w" 1 false false true sWr).1,
   (c5_amended 0 "w" 1 false false false sWr).2.2 rfl rfl rfl⟩

/-- `get_or_create_user` never touches the tasks table. -/
theorem tasks_get_or_create (did : String) (s : Store) :
    ((get_or_create_user did s).1).tasks = s.tasks := by
  unfold get_or_create_user
  cases findUserByDiscord s did <;> rfl

/-- The priority step is the identity when no marker is present. -/
theorem parse_priority_no_marker (text prio : Str)
    (h : containsSeq prioHead prioTail text = false) :
    parse_priority_step text prio = (text, prio) := by
  simp [parse_priority_step, h]

/-- C9 counterexample: a whitespace-only input is truthy in Python, so
`if not task_description` does NOT reject it — `add_task` inserts a task
whose description is the whitespace text, where the claim demands a
`ValidationError` and no insertion. -/
theorem c9_counterexample :
    ("   ".toList ≠ ([] : Str)) ∧
    "   ".toList.all Char.isWhitespace = true ∧
    (add_task (fun _ => none) 0 "w" (some "   ".toList) sW).2
      = AddOutcome.ok 1 ∧
    ((add_task (fun _ => none) 0 "w" (some "   ".toList) sW).1).tasks.map
      (fun t => t.description) = ["   ".toList] :=
  ⟨by decide, by decide, by decide, by decide⟩

/-- C9 amended: `add_task` rejects only a missing or EMPTY input (a
whitespace-only input is accepted and stored verbatim); a due-date parse
failure aborts with no insertion; otherwise exactly one task is inserted,
with `completed = false`, `notified = false`, and priority `Medium` when
no priority marker is present. -/
theorem c9_amended (parse : Str → Option ParsedDT) (now : Nat) (did : String)
    (s : Store) :
    add_task parse now did none s = (s, AddOutcome.emptyInput) ∧
    add_task parse now did (some []) s = (s, AddOutcome.emptyInput) ∧
    (∀ text, text ≠ [] →
      (parse_due_add parse ((parse_priority_step text "Medium".toList).1) = none →
        add_task parse now did (some text) s = (s, AddOutcome.dateParseError)) ∧
      (∀ d due,
        parse_due_add parse ((parse_priority_step text "Medium".toList).1)
            = some (d, due) →
        ∃ nt, ((add_task parse now did (some text) s).1).tasks = s.tasks ++ [nt] ∧
          (add_task parse now did (some text) s).2 = AddOutcome.ok nt.tid ∧
          nt.description = d ∧ nt.dueDate = due ∧
          nt.completed = false ∧ nt.notified = false ∧
          (containsSeq prioHead prioTail text = false →
            nt.priority = "Medium".toList))) := by
  refine ⟨rfl, by simp [add_task], ?_⟩
  intro text hne
  constructor
  · intro hpd
    simp only [add_task]
    rw [if_neg hne, hpd]
  · intro d due hpd
    refine ⟨{ tid := ((get_or_create_user did s).1).nextTaskId
              description := d
              dueDate := due
              completed := false
              priority := (parse_priority_step text "Medium".toList).2
              addedAt := now
              editedAt := none
              notified := false
              userId := (get_or_create_user did s).2 }, ?_, ?_, rfl, rfl, rfl,
      rfl, ?_⟩
    · simp only [add_task]
      rw [if_neg hne, hpd]
      simp [tasks_get_or_create]
    · simp only [add_task]
      rw [if_neg hne, hpd]
    · intro hm
      simp [parse_priority_step, hm]

/-- Witness for the amended C9 at concrete inputs. -/
theorem c9_amended_witness :
    add_task (fun _ => none) 5 "w" none sW = (sW, AddOutcome.emptyInput) ∧
    (∃ nt, ((add_task (fun _ => none) 5 "w" (some "hi".toList) sW).1).tasks
        = sW.tasks ++ [nt] ∧
      (add_task (fun _ => none) 5 "w" (some "hi".toList) sW).2
        = AddOutcome.ok nt.tid ∧
      nt.description = "hi".toList ∧ nt.dueDate = none ∧
      nt.completed = false ∧ nt.notified = false ∧
      (containsSeq prioHead prioTail "hi".toList = false →
        nt.priority = "Medium".toList)) :=
  ⟨(c9_amended (fun _ => none) 5 "w" sW).1,
   ((c9_amended (fun _ => none) 5 "w" sW).2.2 "hi".toList (by decide)).2
     "hi".toList none (by decide)⟩

/-- C6 counterexample: the marker word "Urgent" is malformed, yet no
`ParseError` is signalled — the `except` branch is unreachable — and the
write proceeds: the task is inserted with the default priority `Medium`
and the marker stripped, where the claim demands an error report and no
write. -/
theorem c6_counterexample :
    containsSeq prioHead prioTail "task [Priority: Urgent]".toList = true ∧
    (add_task (fun _ => none) 0 "w"
        (some "task [Priority: Urgent]".toList) sW).2 = AddOutcome.ok 1 ∧
    ((add_task (fun _ => none) 0 "w"
        (some "task [Priority: Urgent]".toList) sW).1).tasks.map
      (fun t => t.priority) = ["Medium".toList] ∧
    ((add_task (fun _ => none) 0 "w"
        (some "task [Priority: Urgent]".toList) sW).1).tasks.map
      (fun t => t.description) = ["task".toList] :=
  ⟨by decide, by decide, by decide, by decide⟩

/-- C6 amended: for input containing `"[Priority:"`, the description
becomes the trimmed text before the FIRST marker occurrence (marker and
everything after it removed); the candidate word is the segment between
the first marker and the next one (or the end), trimmed and with trailing
`]` stripped; the tier becomes its capitalization exactly when that
capitalization is High/Medium/Low, and otherwise the prior/default tier is
silently kept; no error is ever raised by the priority step and the
insertion still happens. -/
theorem c6_amended (text prio : Str)
    (hm : containsSeq prioHead prioTail text = true) :
    ∃ pre rest, text = pre ++ (prioHead :: prioTail) ++ rest ∧
      containsSeq prioHead prioTail pre = false ∧
      containsSeq prioHead prioTail
        ((pySplit prioHead prioTail rest).headD []) = false ∧
      (rest = (pySplit prioHead prioTail rest).headD [] ∨
        ∃ r2, rest = ((pySplit prioHead prioTail rest).headD [])
            ++ (prioHead :: prioTail) ++ r2) ∧
      parse_priority_step text prio =
        (trimL pre,
         if pyCapitalize (rstripRB (trimL
              ((pySplit prioHead prioTail rest).headD []))) == "High".toList
            || pyCapitalize (rstripRB (trimL
              ((pySplit prioHead prioTail rest).headD []))) == "Medium".toList
            || pyCapitalize (rstripRB (trimL
              ((pySplit prioHead prioTail rest).headD []))) == "Low".toList
         then pyCapitalize (rstripRB (trimL
              ((pySplit prioHead prioTail rest).headD [])))
         else prio) ∧
      (∀ (parse : Str → Option ParsedDT) (now : Nat) (did : String) (s : Store),
        containsSeq 'b' "y".toList (trimL pre) = false →
        ∃ tid', (add_task parse now did (some text) s).2 = AddOutcome.ok tid') := by
  rcases pySplit_cases prioHead prioTail text with ⟨hc, _⟩ | ⟨pre, rest, hdec, hcpre, hsp⟩
  · rw [hc] at hm
    cases hm
  have hparts1 : (pySplit prioHead prioTail text).headD [] = pre := by
    rw [hsp]
    rfl
  have hparts2 : (pySplit prioHead prioTail text).getD 1 []
      = (pySplit prioHead prioTail rest).headD [] := by
    rw [hsp]
    cases hq : pySplit prioHead prioTail rest with
    | nil => exact absurd hq (pySplit_ne_nil _ _ _)
    | cons q qs => rfl
  have hstep : ∀ pr, parse_priority_step text pr =
      (trimL pre,
       if pyCapitalize (rstripRB (trimL
            ((pySplit prioHead prioTail rest).headD []))) == "High".toList
          || pyCapitalize (rstripRB (trimL
            ((pySplit prioHead prioTail rest).headD []))) == "Medium".toList
          || pyCapitalize (rstripRB (trimL
            ((pySplit prioHead prioTail rest).headD []))) == "Low".toList
       then pyCapitalize (rstripRB (trimL
            ((pySplit prioHead prioTail rest).headD [])))
       else pr) := by
    intro pr
    unfold parse_priority_step
    rw [if_pos hm]
    simp only [hparts1, hparts2]
    split_ifs <;> rfl
  refine ⟨pre, rest, hdec, hcpre, ?_, ?_, hstep prio, ?_⟩
  · rcases pySplit_cases prioHead prioTail rest with ⟨hc2, hs2⟩ | ⟨p2, q2, hdec2, hcp2, hsp2⟩
    · rw [hs2]
      exact hc2
    · rw [hsp2]
      exact hcp2
  · rcases pySplit_cases prioHead prioTail rest with ⟨hc2, hs2⟩ | ⟨p2, q2, hdec2, hcp2, hsp2⟩
    · left
      rw [hs2]
      rfl
    · right
      rw [hsp2]
      exact ⟨q2, hdec2⟩
  · intro parse now did s hby
    have htne : text ≠ [] := containsSeq_ne_nil hm
    have hval : ¬ (containsSeq 'b' "y".toList (trimL pre) = true) := by
      rw [hby]
      exact Bool.false_ne_true
    have hpda : parse_due_add parse (trimL pre) = some (trimL pre, none) := by
      unfold parse_due_add
      rw [if_neg hval]
    simp only [add_task]
    rw [if_neg htne, hstep "Medium".toList]
    rw [show ((trimL pre,
        if pyCapitalize (rstripRB (trimL
             ((pySplit prioHead prioTail rest).headD []))) == "High".toList
           || pyCapitalize (rstripRB (trimL
             ((pySplit prioHead prioTail rest).headD []))) == "Medium".toList
           || pyCapitalize (rstripRB (trimL
             ((pySplit prioHead prioTail rest).headD []))) == "Low".toList
        then pyCapitalize (rstripRB (trimL
             ((pySplit prioHead prioTail rest).headD [])))
        else "Medium".toList) : Str × Str).1 = trimL pre from rfl, hpda]
    exact ⟨_, rfl⟩

/-- Witness for the amended C6 at a concrete lower-case marker. -/
theorem c6_amended_witness :
    containsSeq prioHead prioTail "x [Priority: low]".toList = true ∧
    (∃ pre rest, "x [Priority: low]".toList
          = pre ++ (prioHead :: prioTail) ++ rest ∧
      containsSeq prioHead prioTail pre = false ∧
      containsSeq prioHead prioTail
        ((pySplit prioHead prioTail rest).headD []) = false ∧
      (rest = (pySplit prioHead prioTail rest).headD [] ∨
        ∃ r2, rest = ((pySplit prioHead prioTail rest).headD [])
            ++ (prioHead :: prioTail) ++ r2) ∧
      parse_priority_step "x [Priority: low]".toList "Medium".toList =
        (trimL pre,
         if pyCapitalize (rstripRB (trimL
              ((pySplit prioHead prioTail rest).headD []))) == "High".toList
            || pyCapitalize (rstripRB (trimL
              ((pySplit prioHead prioTail rest).headD []))) == "Medium".toList
            || pyCapitalize (rstripRB (trimL
              ((pySplit prioHead prioTail rest).headD []))) == "Low".toList
         then pyCapitalize (rstripRB (trimL
              ((pySplit prioHead prioTail rest).headD [])))
         else "Medium".toList) ∧
      (∀ (parse : Str → Option ParsedDT) (now : Nat) (did : String) (s : Store),
        containsSeq 'b' "y".toList (trimL pre) = false →
        ∃ tid', (add_task parse now did
            (some "x [Priority: low]".toList) s).2 = AddOutcome.ok tid')) :=
  ⟨by decide, c6_amended "x [Priority: low]".toList "Medium".toList (by decide)⟩

/-- The capitalization really canonicalizes on the witness input. -/
theorem c6_amended_concrete :
    parse_priority_step "x [Priority: low]".toList "Medium".toList
      = ("x".toList, "Low".toList) := by
  decide

/-- C7 counterexample: the raw input contains the token "by", and the
date oracle succeeds on every string, yet the inserted task has NO due
date and its description is "a" — because the priority step runs first
and discards everything after "[Priority:", the "by tomorrow" part never
reaches the date parser.  The claim ("for every raw input containing
'by' ... the text after it is parsed ... into an absolute timestamp") is
false at this input. -/
theorem c7_counterexample :
    containsSeq 'b' "y".toList "a [Priority: High] by tomorrow".toList
      = true ∧
    (add_task (fun _ => some { t := 1000, tz := none }) 0 "w"
        (some "a [Priority: High] by tomorrow".toList) sW).2
      = AddOutcome.ok 1 ∧
    ((add_task (fun _ => some { t := 1000, tz := none }) 0 "w"
        (some "a [Priority: High] by tomorrow".toList) sW).1).tasks.map
      (fun t => t.dueDate) = [none] ∧
    ((add_task (fun _ => some { t := 1000, tz := none }) 0 "w"
        (some "a [Priority: High] by tomorrow".toList) sW).1).tasks.map
      (fun t => t.description) = ["a".toList] :=
  ⟨by decide, by decide, by decide, by decide⟩

/-- C7 amended: for the text that reaches due-date extraction (the
description left after the priority step) containing the SUBSTRING "by",
both extractors split at its first occurrence: the description is the
trimmed part before it, the rejoined remainder (trimmed) is handed to the
fuzzy date parser; a naive parse result is read as UTC, an aware one is
converted to UTC by subtracting its offset; a parse failure aborts
`add_task`/`edit_task` with a date `ParseError` and no store mutation. -/
theorem c7_amended (parse : Str → Option ParsedDT) (text : Str)
    (hby : containsSeq 'b' "y".toList text = true) :
    ∃ pre post, text = pre ++ "by".toList ++ post ∧
      containsSeq 'b' "y".toList pre = false ∧
      (parse (trimL post) = none →
        parse_due_add parse text = none ∧
        parse_due_edit parse text = none ∧
        (∀ (now : Nat) (did : String) (s : Store) (raw0 : Str),
          raw0 ≠ [] → (parse_priority_step raw0 "Medium".toList).1 = text →
          add_task parse now did (some raw0) s = (s, AddOutcome.dateParseError)) ∧
        (∀ (now : Nat) (did : String) (tid : Nat) (s : Store) (u : UserR)
            (t : TaskR) (raw0 : Str),
          findUserByDiscord s did = some u →
          s.tasks.find? (pendingPred u.uid tid) = some t →
          raw0 ≠ [] → tid ≠ 0 →
          (parse_priority_step raw0 t.priority).1 = text →
          edit_task parse now did tid (some raw0) s
            = (s, EditOutcome.dateParseError))) ∧
      (∀ p, parse (trimL post) = some p →
        parse_due_add parse text = some (trimL pre, some (normalizeUTC p)) ∧
        parse_due_edit parse text = some (trimL pre, some (normalizeUTC p)) ∧
        (p.tz = none → normalizeUTC p = p.t) ∧
        (∀ off, p.tz = some off → normalizeUTC p = p.t - off) ∧
        (∀ (now : Nat) (did : String) (s : Store) (raw0 : Str),
          raw0 ≠ [] → (parse_priority_step raw0 "Medium".toList).1 = text →
          ∃ nt, ((add_task parse now did (some raw0) s).1).tasks
              = s.tasks ++ [nt] ∧
            (add_task parse now did (some raw0) s).2 = AddOutcome.ok nt.tid ∧
            nt.description = trimL pre ∧
            nt.dueDate = some (normalizeUTC p))) := by
  rcases pySplit_cases 'b' "y".toList text with ⟨hc, _⟩ | ⟨pre, post, hdec, hcpre, hsp⟩
  · rw [hc] at hby
    cases hby
  have hhead : (pySplit 'b' "y".toList text).headD [] = pre := by
    rw [hsp]
    rfl
  have htail : (pySplit 'b' "y".toList text).tail
      = pySplit 'b' "y".toList post := by
    rw [hsp]
    rfl
  have hdate : trimL (joinWith "by".toList (pySplit 'b' "y".toList text).tail)
      = trimL post := by
    rw [htail]
    rw [show "by".toList = 'b' :: "y".toList from rfl]
    rw [joinWith_pySplit]
  have hpadd : parse_due_add parse text =
      (match parse (trimL post) with
       | none => none
       | some p => some (trimL pre, some (normalizeUTC p))) := by
    unfold parse_due_add
    rw [if_pos hby]
    simp only [hhead, hdate]
  have hpedit : parse_due_edit parse text =
      (match parse (trimL post) with
       | none => none
       | some p => some (trimL pre, some (normalizeUTC p))) := by
    unfold parse_due_edit
    rw [if_pos hby]
    simp only [hhead, hdate]
  refine ⟨pre, post, hdec, hcpre, ?_, ?_⟩
  · intro hfail
    have hadd : parse_due_add parse text = none := by
      rw [hpadd, hfail]
    have hedit : parse_due_edit parse text = none := by
      rw [hpedit, hfail]
    refine ⟨hadd, hedit, ?_, ?_⟩
    · intro now did s raw0 hne hpp
      simp only [add_task]
      rw [if_neg hne, hpp, hadd]
    · intro now did tid s u t raw0 hu hfind hne htid0 hpp
      simp only [edit_task]
      rw [if_neg (by
        intro hor
        rcases hor with h | h
        · exact htid0 h
        · exact hne h)]
      rw [get_or_create_user_of_found hu]
      simp only [hfind, hpp, hedit]
  · intro p hsome
    have hadd : parse_due_add parse text
        = some (trimL pre, some (normalizeUTC p)) := by
      rw [hpadd, hsome]
    have hedit : parse_due_edit parse text
        = some (trimL pre, some (normalizeUTC p)) := by
      rw [hpedit, hsome]
    refine ⟨hadd, hedit, ?_, ?_, ?_⟩
    · intro htz
      unfold normalizeUTC
      rw [htz]
    · intro off htz
      unfold normalizeUTC
      rw [htz]
    · intro now did s raw0 hne hpp
      refine ⟨{ tid := ((get_or_create_user did s).1).nextTaskId
                description := trimL pre
                dueDate := some (normalizeUTC p)
                completed := false
                priority := (parse_priority_step raw0 "Medium".toList).2
                addedAt := now
                editedAt := none
                notified := false
                userId := (get_or_create_user did s).2 }, ?_, ?_, rfl, rfl⟩
      · simp only [add_task]
        rw [if_neg hne, hpp, hadd]
        simp [tasks_get_or_create]
      · simp only [add_task]
        rw [if_neg hne, hpp, hadd]

/-- A date oracle that always succeeds with an aware timestamp
(wall clock 1000 s at offset +3600 s). -/
def parseS : Str → Option ParsedDT := fun _ => some { t := 1000, tz := some 3600 }

/-- Witness for the amended C7 at a concrete input and oracle. -/
theorem c7_amended_witness :
    containsSeq 'b' "y".toList "pay by tomorrow".toList = true ∧
    (∃ pre post, "pay by tomorrow".toList = pre ++ "by".toList ++ post ∧
      containsSeq 'b' "y".toList pre = false ∧
      (parseS (trimL post) = none →
        parse_due_add parseS "pay by tomorrow".toList = none ∧
        parse_due_edit parseS "pay by tomorrow".toList = none ∧
        (∀ (now : Nat) (did : String) (s : Store) (raw0 : Str),
          raw0 ≠ [] →
          (parse_priority_step raw0 "Medium".toList).1 = "pay by tomorrow".toList →
          add_task parseS now did (some raw0) s = (s, AddOutcome.dateParseError)) ∧
        (∀ (now : Nat) (did : String) (tid : Nat) (s : Store) (u : UserR)
            (t : TaskR) (raw0 : Str),
          findUserByDiscord s did = some u →
          s.tasks.find? (pendingPred u.uid tid) = some t →
          raw0 ≠ [] → tid ≠ 0 →
          (parse_priority_step raw0 t.priority).1 = "pay by tomorrow".toList →
          edit_task parseS now did tid (some raw0) s
            = (s, EditOutcome.dateParseError))) ∧
      (∀ p, parseS (trimL post) = some p →
        parse_due_add parseS "pay by tomorrow".toList
          = some (trimL pre, some (normalizeUTC p)) ∧
        parse_due_edit parseS "pay by tomorrow".toList
          = some (trimL pre, some (normalizeUTC p)) ∧
        (p.tz = none → normalizeUTC p = p.t) ∧
        (∀ off, p.tz = some off → normalizeUTC p = p.t - off) ∧
        (∀ (now : Nat) (did : String) (s : Store) (raw0 : Str),
          raw0 ≠ [] →
          (parse_priority_step raw0 "Medium".toList).1 = "pay by tomorrow".toList →
          ∃ nt, ((add_task parseS now did (some raw0) s).1).tasks
              = s.tasks ++ [nt] ∧
            (add_task parseS now did (some raw0) s).2 = AddOutcome.ok nt.tid ∧
            nt.description = trimL pre ∧
            nt.dueDate = some (normalizeUTC p)))) :=
  ⟨by decide, c7_amended parseS "pay by tomorrow".toList (by decide)⟩

/-- On the witness input the aware timestamp really is converted to UTC:
the stored due date is `1000 - 3600`. -/
theorem c7_amended_concrete :
    parse_due_add parseS "pay by tomorrow".toList
      = some ("pay".toList, some (-2600)) := by
  decide

/-- C10 counterexample: for `"pay by Friday [Priority: High]"` the
trimmed text preceding the marker is `"pay by Friday"`, but the STORED
description is `"pay"`: the prefix still goes through due-date
extraction, which truncates it at its own "by".  The claim's "the stored
description is exactly the trimmed text preceding the first occurrence"
is false at this input. -/
theorem c10_counterexample :
    containsSeq prioHead prioTail
      "pay by Friday [Priority: High]".toList = true ∧
    trimL ((pySplit prioHead prioTail
        "pay by Friday [Priority: High]".toList).headD [])
      = "pay by Friday".toList ∧
    ((add_task (fun _ => some { t := 1000, tz := none }) 0 "w"
        (some "pay by Friday [Priority: High]".toList) sW).1).tasks.map
      (fun t => t.description) = ["pay".toList] ∧
    ("pay".toList ≠ "pay by Friday".toList) :=
  ⟨by decide, by decide, by decide, by decide⟩

/-- C10 amended: for input containing `"[Priority:"`, the priority step
hands exactly the trimmed prefix before the first marker to due-date
extraction — everything from the marker on is discarded, so a
"by <date>" phrase after the marker is never parsed; the stored
description is that trimmed prefix when it contains no "by", and
otherwise is further truncated by the due-date split of the prefix
itself. -/
theorem c10_amended (text : Str)
    (hm : containsSeq prioHead prioTail text = true) :
    ∃ pre rest, text = pre ++ (prioHead :: prioTail) ++ rest ∧
      containsSeq prioHead prioTail pre = false ∧
      (∀ pr, (parse_priority_step text pr).1 = trimL pre) ∧
      (∀ (parse : Str → Option ParsedDT) (now : Nat) (did : String) (s : Store),
        (parse_due_add parse (trimL pre) = none →
          add_task parse now did (some text) s
            = (s, AddOutcome.dateParseError)) ∧
        (∀ d due, parse_due_add parse (trimL pre) = some (d, due) →
          ∃ nt, ((add_task parse now did (some text) s).1).tasks
              = s.tasks ++ [nt] ∧
            (add_task parse now did (some text) s).2 = AddOutcome.ok nt.tid ∧
            nt.description = d ∧ nt.dueDate = due)) ∧
      (containsSeq 'b' "y".toList (trimL pre) = false →
        ∀ (parse : Str → Option ParsedDT) (now : Nat) (did : String) (s : Store),
        ∃ nt, ((add_task parse now did (some text) s).1).tasks
            = s.tasks ++ [nt] ∧
          nt.description = trimL pre ∧ nt.dueDate = none) := by
  rcases pySplit_cases prioHead prioTail text with ⟨hc, _⟩ | ⟨pre, rest, hdec, hcpre, hsp⟩
  · rw [hc] at hm
    cases hm
  have htne : text ≠ [] := containsSeq_ne_nil hm
  have hparts1 : (pySplit prioHead prioTail text).headD [] = pre := by
    rw [hsp]
    rfl
  have hfst : ∀ pr, (parse_priority_step text pr).1 = trimL pre := by
    intro pr
    unfold parse_priority_step
    rw [if_pos hm]
    simp only [hparts1]
    split_ifs <;> rfl
  have hmain : ∀ (parse : Str → Option ParsedDT) (now : Nat) (did : String)
      (s : Store),
      (parse_due_add parse (trimL pre) = none →
        add_task parse now did (some text) s
          = (s, AddOutcome.dateParseError)) ∧
      (∀ d due, parse_due_add parse (trimL pre) = some (d, due) →
        ∃ nt, ((add_task parse now did (some text) s).1).tasks
            = s.tasks ++ [nt] ∧
          (add_task parse now did (some text) s).2 = AddOutcome.ok nt.tid ∧
          nt.description = d ∧ nt.dueDate = due) := by
    intro parse now did s
    constructor
    · intro hfail
      simp only [add_task]
      rw [if_neg htne, hfst "Medium".toList, hfail]
    · intro d due hsome
      refine ⟨{ tid := ((get_or_create_user did s).1).nextTaskId
                description := d
                dueDate := due
                completed := false
                priority := (parse_priority_step text "Medium".toList).2
                addedAt := now
                editedAt := none
                notified := false
                userId := (get_or_create_user did s).2 }, ?_, ?_, rfl, rfl⟩
      · simp only [add_task]
        rw [if_neg htne, hfst "Medium".toList, hsome]
        simp [tasks_get_or_create]
      · simp only [add_task]
        rw [if_neg htne, hfst "Medium".toList, hsome]
  refine ⟨pre, rest, hdec, hcpre, hfst, hmain, ?_⟩
  intro hbyf parse now did s
  have hval : ¬ (containsSeq 'b' "y".toList (trimL pre) = true) := by
    rw [hbyf]
    exact Bool.false_ne_true
  have hpda : parse_due_add parse (trimL pre) = some (trimL pre, none) := by
    unfold parse_due_add
    rw [if_neg hval]
  obtain ⟨nt, h1, _, h3, h4⟩ := (hmain parse now did s).2 (trimL pre) none hpda
  exact ⟨nt, h1, h3, h4⟩

/-- Witness for the amended C10 at a concrete input. -/
theorem c10_amended_witness :
    containsSeq prioHead prioTail "do it [Priority: High] by noon".toList
      = true ∧
    (∃ pre rest, "do it [Priority: High] by noon".toList
          = pre ++ (prioHead :: prioTail) ++ rest ∧
      containsSeq prioHead prioTail pre = false ∧
      (∀ pr, (parse_priority_step
          "do it [Priority: High] by noon".toList pr).1 = trimL pre) ∧
      (∀ (parse : Str → Option ParsedDT) (now : Nat) (did : String) (s : Store),
        (parse_due_add parse (trimL pre) = none →
          add_task parse now did
              (some "do it [Priority: High] by noon".toList) s
            = (s, AddOutcome.dateParseError)) ∧
        (∀ d due, parse_due_add parse (trimL pre) = some (d, due) →
          ∃ nt, ((add_task parse now did
              (some "do it [Priority: High] by noon".toList) s).1).tasks
              = s.tasks ++ [nt] ∧
            (add_task parse now did
              (some "do it [Priority: High] by noon".toList) s).2
              = AddOutcome.ok nt.tid ∧
            nt.description = d ∧ nt.dueDate = due)) ∧
      (containsSeq 'b' "y".toList (trimL pre) = false →
        ∀ (parse : Str → Option ParsedDT) (now : Nat) (did : String) (s : Store),
        ∃ nt, ((add_task parse now did
            (some "do it [Priority: High] by noon".toList) s).1).tasks
            = s.tasks ++ [nt] ∧
          nt.description = trimL pre ∧ nt.dueDate = none)) :=
  ⟨by decide, c10_amended "do it [Priority: High] by noon".toList (by decide)⟩

/-- On the witness input the "by noon" after the marker is ignored even
though the oracle would parse it: no due date is stored. -/
theorem c10_amended_concrete :
    ((add_task parseS 0 "w"
        (some "do it [Priority: High] by noon".toList) sW).1).tasks.map
      (fun t => (t.description, t.dueDate))
      = [("do it".toList, none)] := by
  decide

/-- C8: an edit input without "by" clears any previously set due date
(`due_date = None` in the `else` branch), while an add input without "by"
simply yields no due date — the Add/Edit asymmetry. -/
theorem c8_edit_clears_due (parse : Str → Option ParsedDT) (now : Nat)
    (did : String) (tid : Nat) (raw : Str) (s : Store) (u : UserR) (t : TaskR)
    (hu : findUserByDiscord s did = some u)
    (hfind : s.tasks.find? (pendingPred u.uid tid) = some t)
    (hby : containsSeq 'b' "y".toList raw = false)
    (hraw : raw ≠ []) (htid0 : tid ≠ 0) :
    (∃ l₁ l₂, s.tasks = l₁ ++ t :: l₂ ∧
      edit_task parse now did tid (some raw) s =
        ({ s with tasks := l₁ ++
            { t with
              description := trimL ((parse_priority_step raw t.priority).1)
              dueDate := none
              priority := (parse_priority_step raw t.priority).2
              editedAt := some now } :: l₂ }, EditOutcome.ok)) ∧
    (∀ (sA : Store) (rawA : Str), containsSeq 'b' "y".toList rawA = false →
      rawA ≠ [] →
      ∃ nt, ((add_task parse now did (some rawA) sA).1).tasks
          = sA.tasks ++ [nt] ∧
        (add_task parse now did (some rawA) sA).2 = AddOutcome.ok nt.tid ∧
        nt.dueDate = none) := by
  constructor
  · have hdesc1 : containsSeq 'b' "y".toList
        ((parse_priority_step raw t.priority).1) = false :=
      containsSeq_false_of_infix (parse_priority_desc_within raw t.priority) hby
    have hval : ¬ (containsSeq 'b' "y".toList
        ((parse_priority_step raw t.priority).1) = true) := by
      rw [hdesc1]
      exact Bool.false_ne_true
    have hpde : parse_due_edit parse ((parse_priority_step raw t.priority).1)
        = some (trimL ((parse_priority_step raw t.priority).1), none) := by
      unfold parse_due_edit
      rw [if_neg hval]
    obtain ⟨l₁, l₂, hls, hall, hpt, hmark⟩ := markFirst_of_find?
      (f := fun v => { v with
        description := trimL ((parse_priority_step raw t.priority).1)
        dueDate := none
        priority := (parse_priority_step raw t.priority).2
        editedAt := some now }) hfind
    refine ⟨l₁, l₂, hls, ?_⟩
    simp only [edit_task]
    rw [if_neg (by
      intro hor
      rcases hor with h | h
      · exact htid0 h
      · exact hraw h)]
    rw [get_or_create_user_of_found hu]
    simp only [hfind, hpde]
    rw [hmark]
  · intro sA rawA hbyA hneA
    have hdescA : containsSeq 'b' "y".toList
        ((parse_priority_step rawA "Medium".toList).1) = false :=
      containsSeq_false_of_infix
        (parse_priority_desc_within rawA "Medium".toList) hbyA
    have hvalA : ¬ (containsSeq 'b' "y".toList
        ((parse_priority_step rawA "Medium".toList).1) = true) := by
      rw [hdescA]
      exact Bool.false_ne_true
    have hpda : parse_due_add parse ((parse_priority_step rawA "Medium".toList).1)
        = some ((parse_priority_step rawA "Medium".toList).1, none) := by
      unfold parse_due_add
      rw [if_neg hvalA]
    refine ⟨{ tid := ((get_or_create_user did sA).1).nextTaskId
              description := (parse_priority_step rawA "Medium".toList).1
              dueDate := none
              completed := false
              priority := (parse_priority_step rawA "Medium".toList).2
              addedAt := now
              editedAt := none
              notified := false
              userId := (get_or_create_user did sA).2 }, ?_, ?_, rfl⟩
    · simp only [add_task]
      rw [if_neg hneA, hpda]
      simp [tasks_get_or_create]
    · simp only [add_task]
      rw [if_neg hneA, hpda]

/-- Witness for C8 at a concrete pending task with a due date set. -/
theorem c8_edit_clears_due_witness :
    findUserByDiscord sWr "w" = some uW ∧
    sWr.tasks.find? (pendingPred uW.uid 1) = some tW ∧
    tW.dueDate = some 0 ∧
    ((∃ l₁ l₂, sWr.tasks = l₁ ++ tW :: l₂ ∧
      edit_task (fun _ => none) 9 "w" 1 (some "new text".toList) sWr =
        ({ sWr with tasks := l₁ ++
            { tW with
              description := trimL
                ((parse_priority_step "new text".toList tW.priority).1)
              dueDate := none
              priority := (parse_priority_step "new text".toList tW.priority).2
              editedAt := some 9 } :: l₂ }, EditOutcome.ok)) ∧
    (∀ (sA : Store) (rawA : Str), containsSeq 'b' "y".toList rawA = false →
      rawA ≠ [] →
      ∃ nt, ((add_task (fun _ => none) 9 "w" (some rawA) sA).1).tasks
          = sA.tasks ++ [nt] ∧
        (add_task (fun _ => none) 9 "w" (some rawA) sA).2
          = AddOutcome.ok nt.tid ∧
        nt.dueDate = none)) :=
  ⟨by decide, by decide, by decide,
   c8_edit_clears_due (fun _ => none) 9 "w" 1 "new text".toList sWr uW tW
     (by decide) (by decide) (by decide) (by decide) (by decide)⟩

/-- `update_streak_and_badges` never touches the tasks table. -/
theorem tasks_update_streak (now uid : Nat) (s : Store) :
    (update_streak_and_badges now uid s).1.tasks = s.tasks := by
  cases h : findUserById s uid with
  | none => simp [update_streak_and_badges, h]
  | some u =>
    simp only [update_streak_and_badges, h]
    split_ifs <;> rfl

/-- `award_points` never touches the tasks table. -/
theorem tasks_award (uid pts : Nat) (s : Store) :
    (award_points uid pts s).tasks = s.tasks := by
  unfold award_points
  cases findUserById s uid <;> rfl

/-- With pairwise-distinct primary keys, a member is determined by its id. -/
theorem unique_by_tid {l : List TaskR}
    (hwf : l.Pairwise (fun a b => a.tid ≠ b.tid)) {t : TaskR} (ht : t ∈ l) :
    ∀ x ∈ l, x.tid = t.tid → x = t := by
  induction l with
  | nil => cases ht
  | cons y ys ih =>
    rcases List.pairwise_cons.1 hwf with ⟨hy, hys⟩
    intro x hx hxt
    rcases List.mem_cons.1 ht with rfl | htys
    · rcases List.mem_cons.1 hx with rfl | hxys
      · rfl
      · exact absurd hxt.symm (hy x hxys)
    · rcases List.mem_cons.1 hx with rfl | hxys
      · exact absurd hxt (hy t htys)
      · exact ih hys htys x hxys hxt

/-- The pending-task query fails when the task with that id is completed
(ids pairwise distinct). -/
theorem find?_pending_none {l : List TaskR} {uid tid : Nat} {t : TaskR}
    (hwf : l.Pairwise (fun a b => a.tid ≠ b.tid)) (ht : t ∈ l)
    (htid : t.tid = tid) (hcomp : t.completed = true) :
    l.find? (pendingPred uid tid) = none := by
  rw [List.find?_eq_none]
  intro x hx hp
  unfold pendingPred at hp
  rw [Bool.and_eq_true, Bool.and_eq_true] at hp
  obtain ⟨⟨h1, _⟩, h3⟩ := hp
  have hx_tid : x.tid = tid := by simpa using h1
  have hxt : x = t := unique_by_tid hwf ht x hx (by rw [hx_tid, htid])
  rw [hxt, hcomp] at h3
  cases h3

/-- `find?` by discord id over a rewriting that preserves `discordId` on
the rows of the list. -/
theorem find?_discord_map_listwise (l : List UserR) (g : UserR → UserR)
    (did : String) (hg : ∀ v ∈ l, (g v).discordId = v.discordId) :
    (l.map g).find? (fun x => x.discordId == did)
      = Option.map g (l.find? (fun x => x.discordId == did)) := by
  induction l with
  | nil => rfl
  | cons x xs ih =>
    have hx := hg x (List.mem_cons_self x xs)
    rw [List.map_cons, List.find?_cons, List.find?_cons]
    by_cases hxd : (x.discordId == did) = true
    · simp [hx, hxd]
    · have hxd' : (x.discordId == did) = false := Bool.eq_false_iff.2 hxd
      simp only [hx, hxd', if_false, Bool.false_eq_true]
      exact ih (fun v hv => hg v (List.mem_cons_of_mem x hv))

/-- Positions whose task was already completed stay completed under
`markFirst` with a completion-preserving rewrite. -/
theorem markFirst_completed_mono (p : TaskR → Bool) (f : TaskR → TaskR)
    (hf : ∀ v, v.completed = true → (f v).completed = true) (l : List TaskR)
    (i : Nat) (h1 : i < l.length) (h2 : i < (markFirst p f l).length)
    (hc : l[i].completed = true) :
    (markFirst p f l)[i].completed = true := by
  rcases (markFirst_getElem p f l).2 i h1 h2 with he | ⟨_, he⟩
  · rw [he]
    exact hc
  · rw [he]
    exact hf _ hc

/-- The tasks table of `check_due_tasks`, as a map. -/
theorem tasks_check_due (now : Int) (send : TaskR → SendOutcome) (s : Store) :
    (check_due_tasks now send s).tasks = s.tasks.map
      (fun t => if dueSelect now t && (send t == SendOutcome.delivered) then
        { t with notified := true } else t) := rfl

/-- C3: a completed task is closed to the commands — `edit_task` and
`done_task` answer `notFound` and leave the store unchanged; a second
`done_task` on the same id answers `notFound` on the unchanged store (no
second streak/points award); and no exposed operation ever turns a
task's `completed` flag back off. -/
theorem c3_completed_closed
    (parse : Str → Option ParsedDT) (now now2 : Nat) (did : String)
    (tid : Nat) (raw : Str) (s : Store) (u : UserR) (t : TaskR)
    (hwf : s.tasks.Pairwise (fun a b => a.tid ≠ b.tid))
    (hu : findUserByDiscord s did = some u)
    (ht : t ∈ s.tasks) (htid : t.tid = tid)
    (hcomp : t.completed = true)
    (hraw : raw ≠ []) (htid0 : tid ≠ 0) :
    edit_task parse now did tid (some raw) s = (s, EditOutcome.notFound) ∧
    done_task now did tid s = (s, DoneOutcome.notFound) ∧
    (∀ (s2 : Store) (u2 : UserR) (aw : List Str) (s2' : Store),
      s2.tasks.Pairwise (fun a b => a.tid ≠ b.tid) →
      findUserByDiscord s2 did = some u2 →
      (∀ v ∈ s2.users, v.uid = u2.uid → v = u2) →
      done_task now did tid s2 = (s2', DoneOutcome.ok aw) →
      done_task now2 did tid s2' = (s2', DoneOutcome.notFound)) ∧
    (∀ (sA : Store) (rawA : Option Str),
      sA.tasks <+: ((add_task parse now did rawA sA).1).tasks) ∧
    (∀ (sA : Store) (tidA : Nat) (rawA : Option Str) (i : Nat)
      (h1 : i < sA.tasks.length)
      (h2 : i < (((edit_task parse now did tidA rawA sA).1).tasks).length),
      sA.tasks[i].completed = true →
      ((((edit_task parse now did tidA rawA sA).1).tasks)[i]).completed
        = true) ∧
    (∀ (sA : Store) (tidA : Nat) (i : Nat)
      (h1 : i < sA.tasks.length)
      (h2 : i < (((done_task now did tidA sA).1).tasks).length),
      sA.tasks[i].completed = true →
      ((((done_task now did tidA sA).1).tasks)[i]).completed = true) ∧
    (∀ (sA : Store) (nowR : Int) (send : TaskR → SendOutcome) (i : Nat)
      (h1 : i < sA.tasks.length)
      (h2 : i < ((check_due_tasks nowR send sA).tasks).length),
      sA.tasks[i].completed = true →
      (((check_due_tasks nowR send sA).tasks)[i]).completed = true) := by
  have hor : ¬ (tid = 0 ∨ raw = []) := by
    intro h
    rcases h with h | h
    · exact htid0 h
    · exact hraw h
  refine ⟨?_, ?_, ?_, ?_, ?_, ?_, ?_⟩
  · -- edit on a completed task
    simp only [edit_task]
    rw [if_neg hor, get_or_create_user_of_found hu,
      find?_pending_none hwf ht htid hcomp]
  · -- done on a completed task
    simp only [done_task]
    rw [if_neg htid0, get_or_create_user_of_found hu,
      find?_pending_none hwf ht htid hcomp]
  · -- double completion
    intro s2 u2 aw s2' hwf2 hu2 huu2 hdone
    have hu2' : s2.users.find? (fun v => v.discordId == did) = some u2 := hu2
    have hmem2 : u2 ∈ s2.users := List.mem_of_find?_eq_some hu2'
    have hfid : findUserById s2 u2.uid = some u2 := by
      cases hf : findUserById s2 u2.uid with
      | none =>
        have hf' : s2.users.find? (fun v => v.uid == u2.uid) = none := hf
        rw [List.find?_eq_none] at hf'
        exact absurd (by simp : (u2.uid == u2.uid) = true) (hf' u2 hmem2)
      | some w =>
        have hf' : s2.users.find? (fun v => v.uid == u2.uid) = some w := hf
        have hw : w ∈ s2.users := List.mem_of_find?_eq_some hf'
        have hww : (w.uid == u2.uid) = true :=
          List.find?_some (p := fun v : UserR => v.uid == u2.uid) hf'
        rw [huu2 w hw (by simpa using hww)]
    cases hfind : s2.tasks.find? (pendingPred u2.uid tid) with
    | none =>
      have hDone : done_task now did tid s2 = (s2, DoneOutcome.notFound) := by
        simp only [done_task]
        rw [if_neg htid0, get_or_create_user_of_found hu2, hfind]
      rw [hDone] at hdone
      have hsnd := congrArg Prod.snd hdone
      simp at hsnd
    | some t2 =>
      obtain ⟨l₁, l₂, hls, hall, hpt, hmark⟩ := markFirst_of_find?
        (f := fun v => { v with completed := true }) hfind
      have ht2id : (t2.tid == tid) = true := by
        unfold pendingPred at hpt
        rw [Bool.and_eq_true, Bool.and_eq_true] at hpt
        exact hpt.1.1
      have hDone : done_task now did tid s2 =
          (award_points u2.uid 10
            (update_streak_and_badges now u2.uid
              { s2 with tasks := markFirst (pendingPred u2.uid tid) (fun v => { v with completed := true }) s2.tasks }).1,
           DoneOutcome.ok
            (update_streak_and_badges now u2.uid
              { s2 with tasks := markFirst (pendingPred u2.uid tid) (fun v => { v with completed := true }) s2.tasks }).2) := by
        simp only [done_task]
        rw [if_neg htid0, get_or_create_user_of_found hu2, hfind]
      rw [hDone] at hdone
      have hs2' : award_points u2.uid 10
          (update_streak_and_badges now u2.uid
            { s2 with tasks := markFirst (pendingPred u2.uid tid) (fun v => { v with completed := true }) s2.tasks }).1 = s2' :=
        congrArg Prod.fst hdone
      set u2n : UserR := { u2 with
        streak := newStreak (dayOf now) u2
        lastCompleted := some now } with hu2n
      set g1 : UserR → UserR := fun v => if v.uid == u2.uid then u2n else v
        with hg1
      set g2 : UserR → UserR := fun v => if v.uid == u2.uid then
          { v with points := v.points + 10 } else v with hg2
      have hfidm : findUserById
          { s2 with tasks := markFirst (pendingPred u2.uid tid) (fun v => { v with completed := true }) s2.tasks } u2.uid
          = some u2 := hfid
      have husers3 : (update_streak_and_badges now u2.uid
          { s2 with tasks := markFirst (pendingPred u2.uid tid) (fun v => { v with completed := true }) s2.tasks }).1.users
          = s2.users.map g1 :=
        update_streak_users now u2.uid _ u2 hfidm
      have hg1uid : ∀ v : UserR, (g1 v).uid = v.uid := by
        intro v
        simp only [hg1]
        by_cases hv : (v.uid == u2.uid) = true
        · rw [if_pos hv]
          have hvu : v.uid = u2.uid := by simpa using hv
          simp only [hu2n]
          exact hvu.symm
        · rw [if_neg hv]
      have hgu : g1 u2 = u2n := by
        simp [hg1]
      have hfid3 : findUserById (update_streak_and_badges now u2.uid
          { s2 with tasks := markFirst (pendingPred u2.uid tid) (fun v => { v with completed := true }) s2.tasks }).1 u2.uid
          = some u2n := by
        show ((update_streak_and_badges now u2.uid _).1).users.find?
          (fun v => v.uid == u2.uid) = some u2n
        rw [husers3, findUserById_map s2.users g1 u2.uid hg1uid]
        have hfid' : s2.users.find? (fun v => v.uid == u2.uid) = some u2 := hfid
        rw [hfid']
        show some (g1 u2) = some u2n
        rw [hgu]
      have husers4 : (award_points u2.uid 10
          (update_streak_and_badges now u2.uid
            { s2 with tasks := markFirst (pendingPred u2.uid tid) (fun v => { v with completed := true }) s2.tasks }).1).users
          = (s2.users.map g1).map g2 := by
        unfold award_points
        rw [hfid3, husers3]
      have hg1d : ∀ v ∈ s2.users, (g1 v).discordId = v.discordId := by
        intro v hv
        simp only [hg1]
        by_cases hvu : (v.uid == u2.uid) = true
        · rw [if_pos hvu]
          have hveq : v = u2 := huu2 v hv (by simpa using hvu)
          simp only [hu2n, hveq]
        · rw [if_neg hvu]
      have hg2d : ∀ v ∈ s2.users.map g1, (g2 v).discordId = v.discordId := by
        intro v _
        simp only [hg2]
        by_cases hvu : (v.uid == u2.uid) = true
        · rw [if_pos hvu]
        · rw [if_neg hvu]
      have hU : findUserByDiscord s2' did = some (g2 u2n) := by
        rw [← hs2']
        show (award_points u2.uid 10 _).users.find?
          (fun v => v.discordId == did) = some (g2 u2n)
        rw [husers4, find?_discord_map_listwise _ g2 did hg2d,
          find?_discord_map_listwise s2.users g1 did hg1d, hu2']
        show some (g2 (g1 u2)) = some (g2 u2n)
        rw [hgu]
      have huidg : (g2 u2n).uid = u2.uid := by
        simp only [hg2]
        by_cases hvu : (u2n.uid == u2.uid) = true
        · rw [if_pos hvu]
        · rw [if_neg hvu]
      have htasks' : s2'.tasks = l₁ ++ { t2 with completed := true } :: l₂ := by
        rw [← hs2', tasks_award, tasks_update_streak]
        exact hmark
      have hnone2 : s2'.tasks.find? (pendingPred u2.uid tid) = none := by
        rw [htasks', List.find?_eq_none]
        intro x hx hp
        rcases List.mem_append.1 hx with hx1 | hx2
        · have hfx := hall x hx1
          rw [hfx] at hp
          cases hp
        · rcases List.mem_cons.1 hx2 with rfl | hxl2
          · simp [pendingPred] at hp
          · have hwfl : (l₁ ++ t2 :: l₂).Pairwise (fun a b => a.tid ≠ b.tid) :=
              hls ▸ hwf2
            have hpair := (List.pairwise_append.1 hwfl).2.1
            have ht2x : t2.tid ≠ x.tid := (List.pairwise_cons.1 hpair).1 x hxl2
            unfold pendingPred at hp
            rw [Bool.and_eq_true, Bool.and_eq_true] at hp
            have hx_tid : x.tid = tid := by simpa using hp.1.1
            have ht2_tid : t2.tid = tid := by simpa using ht2id
            exact ht2x (by rw [ht2_tid, hx_tid])
      simp only [done_task]
      rw [if_neg htid0, get_or_create_user_of_found hU]
      simp only [huidg, hnone2]
  · -- add_task never rewrites existing rows (old tasks are a prefix)
    intro sA rawA
    cases rawA with
    | none => exact List.prefix_refl _
    | some text =>
      by_cases hne : text = []
      · have hh : add_task parse now did (some text) sA
            = (sA, AddOutcome.emptyInput) := by
          subst hne
          simp [add_task]
        rw [hh]
      · cases hpd : parse_due_add parse
            ((parse_priority_step text "Medium".toList).1) with
        | none =>
          have hh : add_task parse now did (some text) sA
              = (sA, AddOutcome.dateParseError) := by
            simp only [add_task]
            rw [if_neg hne, hpd]
          rw [hh]
        | some pr =>
          obtain ⟨d, due⟩ := pr
          simp only [add_task]
          rw [if_neg hne, hpd]
          simp only [tasks_get_or_create]
          exact List.prefix_append _ _
  · -- edit_task never un-completes a task
    intro sA tidA rawA i h1 h2 hc
    cases rawA with
    | none => exact hc
    | some text =>
      by_cases h0 : tidA = 0 ∨ text = []
      · have hh : edit_task parse now did tidA (some text) sA
            = (sA, EditOutcome.missingArgs) := by
          simp only [edit_task]
          rw [if_pos h0]
        revert h2
        rw [hh]
        intro h2
        exact hc
      · cases hf : ((get_or_create_user did sA).1).tasks.find?
            (pendingPred ((get_or_create_user did sA).2) tidA) with
        | none =>
          have hh : edit_task parse now did tidA (some text) sA
              = ((get_or_create_user did sA).1, EditOutcome.notFound) := by
            simp only [edit_task]
            rw [if_neg h0]
            simp only [hf]
          revert h2
          rw [hh]
          simp only [tasks_get_or_create]
          intro h2
          exact hc
        | some tf =>
          cases hpd : parse_due_edit parse
              ((parse_priority_step text tf.priority).1) with
          | none =>
            have hh : edit_task parse now did tidA (some text) sA
                = ((get_or_create_user did sA).1, EditOutcome.dateParseError) := by
              simp only [edit_task]
              rw [if_neg h0]
              simp only [hf, hpd]
            revert h2
            rw [hh]
            simp only [tasks_get_or_create]
            intro h2
            exact hc
          | some pr =>
            obtain ⟨d, due⟩ := pr
            have hh : edit_task parse now did tidA (some text) sA
                = ({ (get_or_create_user did sA).1 with
                    tasks := markFirst
                      (pendingPred ((get_or_create_user did sA).2) tidA)
                      (fun v => { v with
                        description := d
                        dueDate := due
                        priority := (parse_priority_step text tf.priority).2
                        editedAt := some now })
                      ((get_or_create_user did sA).1).tasks },
                  EditOutcome.ok) := by
              simp only [edit_task]
              rw [if_neg h0]
              simp only [hf, hpd]
            revert h2
            rw [hh]
            simp only [tasks_get_or_create]
            intro h2
            exact markFirst_completed_mono
              (pendingPred ((get_or_create_user did sA).2) tidA)
              (fun v => { v with description := d, dueDate := due, priority := (parse_priority_step text tf.priority).2, editedAt := some now })
              (fun v hv => hv) sA.tasks i h1 h2 hc
  · -- done_task never un-completes a task
    intro sA tidA i h1 h2 hc
    by_cases h0 : tidA = 0
    · have hh : done_task now did tidA sA = (sA, DoneOutcome.missingArgs) := by
        simp only [done_task]
        rw [if_pos h0]
      revert h2
      rw [hh]
      intro h2
      exact hc
    · cases hf : ((get_or_create_user did sA).1).tasks.find?
          (pendingPred ((get_or_create_user did sA).2) tidA) with
      | none =>
        have hh : done_task now did tidA sA
            = ((get_or_create_user did sA).1, DoneOutcome.notFound) := by
          simp only [done_task]
          rw [if_neg h0]
          simp only [hf]
        revert h2
        rw [hh]
        simp only [tasks_get_or_create]
        intro h2
        exact hc
      | some tf =>
        have hh : ((done_task now did tidA sA).1).tasks
            = markFirst (pendingPred ((get_or_create_user did sA).2) tidA)
              (fun v => { v with completed := true })
              ((get_or_create_user did sA).1).tasks := by
          simp only [done_task]
          rw [if_neg h0]
          simp only [hf]
          rw [tasks_award, tasks_update_streak]
        revert h2
        rw [hh]
        simp only [tasks_get_or_create]
        intro h2
        exact markFirst_completed_mono
          (pendingPred ((get_or_create_user did sA).2) tidA)
          (fun v => { v with completed := true })
          (fun v hv => rfl) sA.tasks i h1 h2 hc
  · -- the reminder sweep never touches the completed flag
    intro sA nowR send i h1 h2 hc
    revert h2
    rw [tasks_check_due]
    intro h2
    rw [List.getElem_map]
    by_cases hcond : (dueSelect nowR sA.tasks[i]
        && (send sA.tasks[i] == SendOutcome.delivered)) = true
    · rw [if_pos hcond]
      exact hc
    · rw [if_neg hcond]
      exact hc

/-- A task of user 1 that is already completed. -/
def tDone : TaskR :=
  { tid := 1, description := "d".toList, dueDate := none, completed := true,
    priority := "Medium".toList, addedAt := 0, editedAt := none,
    notified := false, userId := 1 }

/-- Store holding `uW` and the completed task `tDone`. -/
def sDone : Store :=
  { users := [uW], tasks := [tDone], badges := [], nextUserId := 2,
    nextTaskId := 2 }

/-- Witness for C3 at a concrete completed task. -/
theorem c3_completed_closed_witness :
    tDone.completed = true ∧
    (edit_task (fun _ => none) 3 "w" 1 (some "x".toList) sDone
      = (sDone, EditOutcome.notFound) ∧
    done_task 3 "w" 1 sDone = (sDone, DoneOutcome.notFound) ∧
    (∀ (s2 : Store) (u2 : UserR) (aw : List Str) (s2' : Store),
      s2.tasks.Pairwise (fun a b => a.tid ≠ b.tid) →
      findUserByDiscord s2 "w" = some u2 →
      (∀ v ∈ s2.users, v.uid = u2.uid → v = u2) →
      done_task 3 "w" 1 s2 = (s2', DoneOutcome.ok aw) →
      done_task 4 "w" 1 s2' = (s2', DoneOutcome.notFound)) ∧
    (∀ (sA : Store) (rawA : Option Str),
      sA.tasks <+: ((add_task (fun _ => none) 3 "w" rawA sA).1).tasks) ∧
    (∀ (sA : Store) (tidA : Nat) (rawA : Option Str) (i : Nat)
      (h1 : i < sA.tasks.length)
      (h2 : i <
        (((edit_task (fun _ => none) 3 "w" tidA rawA sA).1).tasks).length),
      sA.tasks[i].completed = true →
      ((((edit_task (fun _ => none) 3 "w" tidA rawA sA).1).tasks)[i]).completed
        = true) ∧
    (∀ (sA : Store) (tidA : Nat) (i : Nat)
      (h1 : i < sA.tasks.length)
      (h2 : i < (((done_task 3 "w" tidA sA).1).tasks).length),
      sA.tasks[i].completed = true →
      ((((done_task 3 "w" tidA sA).1).tasks)[i]).completed = true) ∧
    (∀ (sA : Store) (nowR : Int) (send : TaskR → SendOutcome) (i : Nat)
      (h1 : i < sA.tasks.length)
      (h2 : i < ((check_due_tasks nowR send sA).tasks).length),
      sA.tasks[i].completed = true →
      (((check_due_tasks nowR send sA).tasks)[i]).completed = true)) :=
  ⟨by decide,
   c3_completed_closed (fun _ => none) 3 4 "w" 1 "x".toList sDone uW tDone
     (by simp [sDone]) (by decide) (by decide) (by decide) (by decide)
     (by decide) (by decide)⟩

/-- Completing the pending task `tW` twice on the concrete store: the
second call reports "no pending task" and changes nothing. -/
theorem c3_double_done_concrete :
    done_task 4 "w" 1 (done_task 3 "w" 1 sWr).1
      = ((done_task 3 "w" 1 sWr).1, DoneOutcome.notFound) := by
  decide
